import Mathlib

/-!
Verification of the media-group collection/debounce core of PyBlinkoBot
(`src/main.py`), shallowly embedded in Lean 4.

The embedding models:
* `upload_file` — the Blinko file-upload call (HTTP response abstracted as a
  status code plus the JSON fields the code inspects);
* `process_media_group` — the group finalizer, as a pure function from a
  group record and an environment (per-message download/upload outcomes,
  note-write outcome) to the list of observable effects it performs;
* `handle_file` — the inbound dispatcher branch for file messages, as a
  transition on a bot state holding the media-group table and the job queue;
* the job queue (`run_once` / `get_jobs_by_name` / `schedule_removal`) as a
  list of jobs with a removal flag, fired explicitly by trace events.

Machine-level effects (replies, edits, downloads, uploads, note writes,
error logs) are recorded in an effect list so that the claims about
"exactly one note-write call", reply targets, ordering and logging can be
stated over the trace.
-/

namespace PyBlinkoBot

/-- The four attachment kinds recognized by `process_media_group`
(`msg.document` / `msg.photo` / `msg.video` / `msg.audio`). -/
inductive AttachKind
  | document
  | photo
  | video
  | audio
deriving DecidableEq, Repr

/-- An inbound Telegram message, with the fields the source reads:
`message_id`, `media_group_id`, `caption` (Python falsy `""`/`None`
collapsed to `""`), the attachment kind (at most one media field is set on a
Telegram message), and the attachment's `file_name` / `file_id`. -/
structure Message where
  msgId : Nat
  mediaGroupId : Option String
  caption : String
  attach : Option AttachKind
  fileName : String
  fileId : String
deriving DecidableEq, Repr

/-- The `file_obj, file_name` selection of `process_media_group` lines
95–105: documents/videos/audios use their `file_name`, photos use
`f"{file_id}.jpg"` (largest rendition), anything else is skipped
(`continue`). Returns the chosen file name, or `none` for "skip". -/
def chosenFileName (m : Message) : Option String :=
  match m.attach with
  | some AttachKind.document => some m.fileName
  | some AttachKind.photo => some (m.fileId ++ ".jpg")
  | some AttachKind.video => some m.fileName
  | some AttachKind.audio => some m.fileName
  | none => none

/-- The JSON object of an upload response, restricted to the four fields the
code ever reads (`fileName`, `filePath`, `size`, `type`); `none` models the
field being absent from the response body. -/
structure JsonObj where
  fileName : Option String
  filePath : Option String
  size : Option Nat
  type : Option String
deriving DecidableEq, Repr

/-- An HTTP response as seen by `upload_file`: final status code and parsed
JSON body. -/
structure HttpResponse where
  status : Nat
  body : JsonObj
deriving DecidableEq, Repr

/-- `upload_file` (src/main.py lines 34–54), outcome only: `none` models a
`requests.exceptions.RequestException` during the POST itself (transport
error).  The code calls `raise_for_status`, which raises `HTTPError`
exactly for status codes 400–599 (caught, giving `None`), then requires
`"filePath" in response_data and "fileName" in response_data`; on success it
returns the response JSON. -/
def upload_file (resp : Option HttpResponse) : Option JsonObj :=
  match resp with
  | none => none
  | some r =>
    if 400 ≤ r.status then none
    else if r.body.filePath.isSome && r.body.fileName.isSome then some r.body
    else none

/-- Modelled from the spec: the spec's acceptance condition for an upload
response — a 2xx status and a JSON object containing at least `fileName`,
`filePath`, `size` and `type`. Used only to compare against the source's
`upload_file`. -/
def uploadSuccessSpec (resp : Option HttpResponse) : Bool :=
  match resp with
  | none => false
  | some r =>
    decide (200 ≤ r.status) && decide (r.status < 300) &&
      r.body.fileName.isSome && r.body.filePath.isSome &&
      r.body.size.isSome && r.body.type.isSome

/-- An attachment object as appended to `attachment_objects`
(src/main.py lines 116–121): the four `.get` lookups of the upload result. -/
structure AttachmentObj where
  name : Option String
  path : Option String
  size : Option Nat
  type : Option String
deriving DecidableEq, Repr

/-- Build the attachment dict from a successful upload result
(`upload_result.get("fileName")`, …). -/
def toAttachment (d : JsonObj) : AttachmentObj :=
  { name := d.fileName, path := d.filePath, size := d.size, type := d.type }

/-- Per-message environment: what the outside world does when the finalizer
processes one message.
* `excEarly`: `context.bot.get_file` / `tg_file.download` raises before the
  transient local file exists;
* `excLate`: an exception is raised after the transient file was written;
* `resp r`: download succeeds and `upload_file` runs against HTTP outcome
  `r` (`none` = transport error). -/
inductive StepEnv
  | excEarly
  | excLate
  | resp (r : Option HttpResponse)
deriving DecidableEq, Repr

/-- Primitive operations on the transient local file at `temp_path`. -/
inductive FileOp
  | create
  | removeIfExists
deriving DecidableEq, Repr

/-- Existence of the transient file after running a sequence of operations:
`create` is `tg_file.download(temp_path)`, `removeIfExists` is
`if os.path.exists(p): os.remove(p)` (the body of `upload_file`'s `finally`
clause and of the `except` handler in `process_media_group`). -/
def runFileOps : List FileOp → Bool → Bool
  | [], b => b
  | FileOp.create :: t, _ => runFileOps t true
  | FileOp.removeIfExists :: t, _ => runFileOps t false

/-- The `finally` clause of `upload_file` (src/main.py lines 52–54), run on
every exit of `upload_file`. -/
def uploadFileCleanup : List FileOp := [FileOp.removeIfExists]

/-- The file operations performed for one recognized message, by
environment path.  An early exception reaches the `except` handler with no
file created; a late exception reaches it with the file present; when the
download completes, `upload_file` is called and its `finally` clause runs on
every exit (success, malformed response, transport error). -/
def attemptFileOps : StepEnv → List FileOp
  | StepEnv.excEarly => [FileOp.removeIfExists]
  | StepEnv.excLate => [FileOp.create, FileOp.removeIfExists]
  | StepEnv.resp _ => FileOp.create :: uploadFileCleanup

/-- Observable effects of the bot, recorded in execution order.
`replyCreate t txt` is `reply_text` on the message with id `t`;
`replyEdit t txt` is `edit_text` on the reply that was created on message
`t`; `getFile i` is the `get_file`/`download` attempt for message `i`;
`uploadCall i` is the invocation of `upload_file` for message `i`;
`logError i` is a `logger.error` about message `i`'s attachment;
`noteWrite c atts` is the single `create_note` call. -/
inductive Effect
  | replyCreate (toMsg : Nat) (text : String)
  | replyEdit (toMsg : Nat) (text : String)
  | getFile (msgId : Nat)
  | uploadCall (msgId : Nat)
  | logError (msgId : Nat)
  | noteWrite (content : String) (atts : List AttachmentObj)
deriving DecidableEq, Repr

/-- The progress edit `f"正在上传第 {i + 1}/{len(messages)} 个文件..."`. -/
def progressText (i n : Nat) : String :=
  "正在上传第 " ++ toString (i + 1) ++ "/" ++ toString n ++ " 个文件..."

/-- Result of processing one message of the group: the effects performed,
the attachment appended to `attachment_objects` (if any), and whether the
transient local file still exists afterwards. -/
structure StepResult where
  effects : List Effect
  attachment : Option AttachmentObj
  fileExistsAfter : Bool
deriving DecidableEq, Repr

/-- One iteration of the `for i, msg in enumerate(messages)` loop of
`process_media_group` (src/main.py lines 93–127): skip unrecognized
messages, otherwise edit the progress text, download, call `upload_file`,
and on any failure log and continue.  `orig` is the id of the message the
status reply was created on, `n = len(messages)`, `i` the enumerate index. -/
def processOne (env : Nat → StepEnv) (orig n i : Nat) (m : Message) : StepResult :=
  match chosenFileName m with
  | none => { effects := [], attachment := none, fileExistsAfter := false }
  | some _ =>
    let prog := Effect.replyEdit orig (progressText i n)
    let gone := runFileOps (attemptFileOps (env m.msgId)) false
    match env m.msgId with
    | StepEnv.excEarly =>
        { effects := [prog, Effect.getFile m.msgId, Effect.logError m.msgId],
          attachment := none, fileExistsAfter := gone }
    | StepEnv.excLate =>
        { effects := [prog, Effect.getFile m.msgId, Effect.logError m.msgId],
          attachment := none, fileExistsAfter := gone }
    | StepEnv.resp r =>
      match upload_file r with
      | some d =>
          { effects := [prog, Effect.getFile m.msgId, Effect.uploadCall m.msgId],
            attachment := some (toAttachment d), fileExistsAfter := gone }
      | none =>
          { effects := [prog, Effect.getFile m.msgId, Effect.uploadCall m.msgId,
              Effect.logError m.msgId],
            attachment := none, fileExistsAfter := gone }

/-- Whether the finalizer's processing of message `m` yields an attachment
descriptor: the message carries a recognized kind, the download does not
raise, and `upload_file` returns a result. -/
def stepSucceeds (env : Nat → StepEnv) (m : Message) : Bool :=
  (chosenFileName m).isSome &&
    (match env m.msgId with
     | StepEnv.resp r => (upload_file r).isSome
     | _ => false)

/-- Whether `upload_file` is actually invoked for `m`: the message is
recognized and the download did not raise. -/
def uploadAttempted (env : Nat → StepEnv) (m : Message) : Bool :=
  (chosenFileName m).isSome &&
    (match env m.msgId with
     | StepEnv.resp _ => true
     | _ => false)

/-- The whole `for i, msg in enumerate(messages)` loop: effects in order and
the final `attachment_objects` list. -/
def processLoop (env : Nat → StepEnv) (orig n : Nat) :
    Nat → List Message → List Effect × List AttachmentObj
  | _, [] => ([], [])
  | i, m :: rest =>
    let r := processOne env orig n i m
    let (effs, atts) := processLoop env orig n (i + 1) rest
    (r.effects ++ effs,
      match r.attachment with
      | some a => a :: atts
      | none => atts)

/-- The caption scan of `process_media_group` (src/main.py lines 84–88):
the first Python-truthy caption in arrival order, else `""`. -/
def firstCaption : List Message → String
  | [] => ""
  | m :: rest => if m.caption = "" then firstCaption rest else m.caption

/-- Placeholder used when no caption is present and the group has exactly
one message. -/
def singlePlaceholder : String := "来自 Telegram 的文件"

/-- Placeholder used when no caption is present and the group has more than
one message. -/
def groupPlaceholder : String := "来自 Telegram 的媒体组"

/-- The caption finally used as note content (src/main.py lines 84–90). -/
def captionOf (msgs : List Message) : String :=
  let c := firstCaption msgs
  if c = "" then
    if msgs.length = 1 then singlePlaceholder else groupPlaceholder
  else c

def headerText (n : Nat) : String :=
  "正在处理包含 " ++ toString n ++ " 个文件的消息..."

def allFailText : String := "保存失败：所有文件都上传失败。"

def creatingNoteText : String := "所有文件上传成功，正在创建最终笔记..."

def savedText : String := "已保存"

def noteFailText : String := "保存失败：笔记创建失败。"

/-- The record stored in `context.bot_data['media_groups'][gid]`:
the accumulated `messages` list and the `original_message` (first message
of the group). -/
structure GroupRecord where
  messages : List Message
  originalMessage : Message
deriving DecidableEq, Repr

/-- The body of `process_media_group` after the record has been popped and
found non-empty (src/main.py lines 81–139): create the status reply on
`orig`, run the upload loop, then either report total failure or call
`create_note` once and report its outcome (`noteOk` is the `create_note`
result). -/
def finalizeRecord (env : Nat → StepEnv) (noteOk : Bool) (orig : Message)
    (msgs : List Message) : List Effect :=
  let pl := processLoop env orig.msgId msgs.length 0 msgs
  if pl.2 = [] then
    Effect.replyCreate orig.msgId (headerText msgs.length) :: pl.1 ++
      [Effect.replyEdit orig.msgId allFailText]
  else
    Effect.replyCreate orig.msgId (headerText msgs.length) :: pl.1 ++
      [Effect.replyEdit orig.msgId creatingNoteText,
       Effect.noteWrite (captionOf msgs) pl.2,
       Effect.replyEdit orig.msgId (if noteOk then savedText else noteFailText)]

/-- Lookup in the `media_groups` dict (association list with unique keys). -/
def lookupGroup : List (String × GroupRecord) → String → Option GroupRecord
  | [], _ => none
  | (k, v) :: t, gid => if k = gid then some v else lookupGroup t gid

/-- `dict.pop(gid, None)`: remove the entry for `gid`. -/
def removeGroup : List (String × GroupRecord) → String → List (String × GroupRecord)
  | [], _ => []
  | (k, v) :: t, gid => if k = gid then t else (k, v) :: removeGroup t gid

/-- `dict[gid] = r`: insert or overwrite. -/
def setGroup : List (String × GroupRecord) → String → GroupRecord → List (String × GroupRecord)
  | [], gid, r => [(gid, r)]
  | (k, v) :: t, gid, r => if k = gid then (k, r) :: t else (k, v) :: setGroup t gid r

/-- `MEDIA_GROUP_COLLECTION_DELAY = 1.5` (src/main.py line 22). -/
def MEDIA_GROUP_COLLECTION_DELAY : ℚ := 1.5

/-- The literal delay `0.1` passed to `run_once` for a single ungrouped
file (src/main.py line 184). -/
def SINGLE_FILE_DELAY : ℚ := 0.1

/-- A job in `context.job_queue`: `run_once(process_media_group, delay,
context=…, name=…)`.  `jobId` is a fresh identifier (scheduling order),
`jobName` the optional `name` argument, `ctxGroupId` / `ctxOriginal` the
`job_context` fields, and `removed` records `schedule_removal`. -/
structure Job where
  jobId : Nat
  jobName : Option String
  delay : ℚ
  ctxGroupId : String
  ctxOriginal : Message
  removed : Bool
deriving DecidableEq, Repr

/-- The mutable bot state: the `media_groups` table and the job queue. -/
structure BotState where
  mediaGroups : List (String × GroupRecord)
  jobs : List Job
  nextJobId : Nat
deriving DecidableEq, Repr

def initState : BotState := { mediaGroups := [], jobs := [], nextJobId := 0 }

/-- `job.schedule_removal()` applied to `j` when its name matches. -/
def cancelOne (gname : String) (j : Job) : Job :=
  if j.jobName = some gname then { j with removed := true } else j

/-- `get_jobs_by_name(name)` followed by `job.schedule_removal()` on each
returned job (src/main.py lines 168–170). -/
def cancelByName (jobs : List Job) (gname : String) : List Job :=
  jobs.map (cancelOne gname)

/-- Decimal digits of `n`, least significant first (empty for `0`). -/
def decDigitsRev (n : Nat) : List Nat :=
  if h : n = 0 then []
  else
    have : n / 10 < n := Nat.div_lt_self (Nat.pos_of_ne_zero h) (by omega)
    (n % 10) :: decDigitsRev (n / 10)

/-- A single decimal digit as a character. -/
def digitChar : Nat → Char
  | 0 => '0'
  | 1 => '1'
  | 2 => '2'
  | 3 => '3'
  | 4 => '4'
  | 5 => '5'
  | 6 => '6'
  | 7 => '7'
  | 8 => '8'
  | _ => '9'

/-- Decimal rendering of a natural number, as Python's f-string renders an
`int`. -/
def natDecimal (n : Nat) : String :=
  if n = 0 then "0" else String.mk (((decDigitsRev n).reverse).map digitChar)

/-- The synthetic one-off group id `f"single_{update.message.message_id}"`
(src/main.py line 178). -/
def syntheticGroupId (msgId : Nat) : String := "single_" ++ natDecimal msgId

/-- `handle_file` (src/main.py lines 151–184): for a grouped message,
create/append the group record, cancel all jobs named after the group id
and schedule a fresh named job with the standard delay; for an ungrouped
message, store a fresh synthetic one-message group and schedule an unnamed
job with the short delay.  No reply is sent. -/
def handle_file (s : BotState) (m : Message) : BotState × List Effect :=
  match m.mediaGroupId with
  | some gid =>
    let newRec :=
      match lookupGroup s.mediaGroups gid with
      | none => { messages := [m], originalMessage := m }
      | some old => { old with messages := old.messages ++ [m] }
    ({ mediaGroups := setGroup s.mediaGroups gid newRec,
       jobs := cancelByName s.jobs gid ++
         [{ jobId := s.nextJobId, jobName := some gid,
            delay := MEDIA_GROUP_COLLECTION_DELAY, ctxGroupId := gid,
            ctxOriginal := newRec.originalMessage, removed := false }],
       nextJobId := s.nextJobId + 1 }, [])
  | none =>
    let vgid := syntheticGroupId m.msgId
    ({ mediaGroups := setGroup s.mediaGroups vgid
         { messages := [m], originalMessage := m },
       jobs := s.jobs ++
         [{ jobId := s.nextJobId, jobName := none,
            delay := SINGLE_FILE_DELAY, ctxGroupId := vgid,
            ctxOriginal := m, removed := false }],
       nextJobId := s.nextJobId + 1 }, [])

/-- `process_media_group` (src/main.py lines 73–139) at state level: pop the
record for `gid`; if it is absent or has no messages, return with no
effects; otherwise run the finalizer body. -/
def process_media_group (env : Nat → StepEnv) (noteOk : Bool) (s : BotState)
    (gid : String) (orig : Message) : BotState × List Effect :=
  match lookupGroup s.mediaGroups gid with
  | none => (s, [])
  | some r =>
    let s' := { s with mediaGroups := removeGroup s.mediaGroups gid }
    if r.messages = [] then (s', [])
    else (s', finalizeRecord env noteOk orig r.messages)

def findJob (jobs : List Job) (jid : Nat) : Option Job :=
  jobs.find? (fun j => j.jobId == jid)

/-- A timer fires: the job leaves the queue; a job cancelled by
`schedule_removal` never runs its callback, otherwise the callback is
`process_media_group` with the job's context. -/
def fireJob (env : Nat → StepEnv) (noteOk : Bool) (s : BotState) (jid : Nat) :
    BotState × List Effect :=
  match findJob s.jobs jid with
  | none => (s, [])
  | some j =>
    let s' := { s with jobs := s.jobs.filter (fun j2 => j2.jobId != jid) }
    if j.removed then (s', [])
    else process_media_group env noteOk s' j.ctxGroupId j.ctxOriginal

/-- The two event sources of the loop: an inbound file message and a timer
firing. -/
inductive Event
  | inbound (m : Message)
  | fire (jid : Nat)
deriving DecidableEq, Repr

def stepEvent (env : Nat → StepEnv) (noteOk : Bool) (s : BotState) :
    Event → BotState × List Effect
  | Event.inbound m => handle_file s m
  | Event.fire jid => fireJob env noteOk s jid

def runEvents (env : Nat → StepEnv) (noteOk : Bool) :
    BotState → List Event → BotState × List Effect
  | s, [] => (s, [])
  | s, e :: rest =>
    ((runEvents env noteOk (stepEvent env noteOk s e).1 rest).1,
     (stepEvent env noteOk s e).2 ++
       (runEvents env noteOk (stepEvent env noteOk s e).1 rest).2)

def run (env : Nat → StepEnv) (noteOk : Bool) (evs : List Event) :
    BotState × List Effect :=
  runEvents env noteOk initState evs

/-- Count of `noteWrite` effects (calls to `create_note`). -/
def isNoteWrite : Effect → Bool
  | Effect.noteWrite _ _ => true
  | _ => false

def noteCount (effs : List Effect) : Nat := (effs.filter isNoteWrite).length

/-- The message ids of `getFile` effects, in order (download attempts). -/
def downloadSeq (effs : List Effect) : List Nat :=
  effs.filterMap (fun e =>
    match e with
    | Effect.getFile i => some i
    | _ => none)

/-- The message ids of `uploadCall` effects, in order. -/
def uploadSeq (effs : List Effect) : List Nat :=
  effs.filterMap (fun e =>
    match e with
    | Effect.uploadCall i => some i
    | _ => none)

/-- The target message of a reply effect. -/
def replyTarget : Effect → Option Nat
  | Effect.replyCreate t _ => some t
  | Effect.replyEdit t _ => some t
  | _ => none

def isReplyCreate : Effect → Bool
  | Effect.replyCreate _ _ => true
  | _ => false

def isLogError : Effect → Bool
  | Effect.logError _ => true
  | _ => false

/-- Value of a least-significant-first decimal digit list (inverse of
`decDigitsRev`, used to prove injectivity of the rendering). -/
def ofDigitsRev : List Nat → Nat
  | [] => 0
  | d :: t => d + 10 * ofDigitsRev t

/-- The jobs present after `k+1` messages of one group have been handled
from the initial state: jobs `0..k`, all named after the group id, all
cancelled except the most recent. -/
def groupJobs (gid : String) (orig : Message) (n : Nat) : List Job :=
  (List.range n).map (fun k =>
    { jobId := k, jobName := some gid, delay := MEDIA_GROUP_COLLECTION_DELAY,
      ctxGroupId := gid, ctxOriginal := orig, removed := decide (k + 1 < n) })

/-- The single live job for a group after its `n`-th message. -/
def liveJob (gid : String) (orig : Message) (n : Nat) : Job :=
  { jobId := n - 1, jobName := some gid, delay := MEDIA_GROUP_COLLECTION_DELAY,
    ctxGroupId := gid, ctxOriginal := orig, removed := false }

/-- The bot state after the inbound events for messages `m1 :: acc` of one
group `gid`, starting from `initState`. -/
def stateAfterInbounds (gid : String) (m1 : Message) (acc : List Message) : BotState :=
  { mediaGroups := [(gid, { messages := m1 :: acc, originalMessage := m1 })],
    jobs := groupJobs gid m1 (acc.length + 1),
    nextJobId := acc.length + 1 }

def isFireEvent : Event → Bool
  | Event.fire _ => true
  | Event.inbound _ => false

/-- All events in the list are timer fires. -/
def allFires (evs : List Event) : Prop := ∀ e ∈ evs, isFireEvent e = true

/-- State invariant during the fire-only phase once a group `gid` with
record `msgs` is accumulated and exactly one live job (the most recently
scheduled, id `n - 1`) points at it. -/
def LiveInv (gid : String) (m1 : Message) (msgs : List Message) (n : Nat)
    (s : BotState) : Prop :=
  s.mediaGroups = [(gid, { messages := msgs, originalMessage := m1 })] ∧
  liveJob gid m1 n ∈ s.jobs ∧
  (∀ j ∈ s.jobs, j.removed = false → j = liveJob gid m1 n) ∧
  (∀ j ∈ s.jobs, j.jobId = n - 1 → j = liveJob gid m1 n)

/-- Every job in the queue has been cancelled. -/
def allRemoved (jobs : List Job) : Prop := ∀ j ∈ jobs, j.removed = true

/-- The message ids of the ungrouped inbound events of a trace, in order. -/
def ungroupedIds (evs : List Event) : List Nat :=
  evs.filterMap (fun e =>
    match e with
    | Event.inbound m =>
      match m.mediaGroupId with
      | none => some m.msgId
      | some _ => none
    | Event.fire _ => none)

/-- Real (upstream) media-group ids are decimal-digit strings, so they can
never carry the `single_` prefix of a synthetic id. -/
def digitGid : Event → Bool
  | Event.inbound m =>
    match m.mediaGroupId with
    | some gid => gid.data.all Char.isDigit
    | none => true
  | Event.fire _ => true

/-- Well-formed trace: ungrouped message ids are pairwise distinct
(Telegram message ids are unique within a chat) and every real group id is
a decimal-digit string. -/
def WFEvents (evs : List Event) : Prop :=
  (ungroupedIds evs).Nodup ∧ ∀ e ∈ evs, digitGid e = true

/-- Invariant of the job queue, relative to the set `future` of ungrouped
message ids that have not arrived yet. -/
structure JobsInv (future : List Nat) (s : BotState) : Prop where
  idBound : ∀ j ∈ s.jobs, j.jobId < s.nextJobId
  idsNodup : (s.jobs.map Job.jobId).Nodup
  named : ∀ j ∈ s.jobs, ∀ g, j.jobName = some g →
    g = j.ctxGroupId ∧ g.data.all Char.isDigit = true
  unnamed : ∀ j ∈ s.jobs, j.jobName = none →
    j.ctxGroupId = syntheticGroupId j.ctxOriginal.msgId ∧
      j.ctxOriginal.msgId ∉ future
  uniqueLive : ∀ j1 ∈ s.jobs, ∀ j2 ∈ s.jobs, j1.removed = false →
    j2.removed = false → j1.ctxGroupId = j2.ctxGroupId → j1 = j2
  liveLatest : ∀ j1 ∈ s.jobs, ∀ j2 ∈ s.jobs, j2.removed = false →
    j1.ctxGroupId = j2.ctxGroupId → j1.jobId ≤ j2.jobId

/-! ### Concrete data used by witnesses -/

def wMsgDoc : Message :=
  { msgId := 1, mediaGroupId := some "g", caption := "",
    attach := some AttachKind.document, fileName := "a.txt", fileId := "fa" }

def wMsgPhoto : Message :=
  { msgId := 2, mediaGroupId := some "g", caption := "puppy",
    attach := some AttachKind.photo, fileName := "", fileId := "fb" }

def wMsgVideo : Message :=
  { msgId := 2, mediaGroupId := some "g", caption := "",
    attach := some AttachKind.video, fileName := "v.mp4", fileId := "fv" }

def wMsgSingleA : Message :=
  { msgId := 10, mediaGroupId := none, caption := "",
    attach := some AttachKind.video, fileName := "v.mp4", fileId := "fv" }

def wMsgSingleB : Message :=
  { msgId := 11, mediaGroupId := none, caption := "",
    attach := some AttachKind.audio, fileName := "s.mp3", fileId := "fs" }

def wMsgDig1 : Message :=
  { msgId := 1, mediaGroupId := some "7", caption := "",
    attach := some AttachKind.document, fileName := "a.txt", fileId := "fa" }

def wMsgDig2 : Message :=
  { msgId := 2, mediaGroupId := some "7", caption := "",
    attach := some AttachKind.video, fileName := "v.mp4", fileId := "fv" }

def wRespOK : HttpResponse :=
  { status := 200,
    body := { fileName := some "a.txt", filePath := some "/files/a.txt",
              size := some 10, type := some "text/plain" } }

def wEnvOK : Nat → StepEnv := fun _ => StepEnv.resp (some wRespOK)

def wEnvFail : Nat → StepEnv := fun _ => StepEnv.resp none

def wEnvMixed : Nat → StepEnv := fun i =>
  if i = 1 then StepEnv.resp (some wRespOK) else StepEnv.resp none

/-- A 2xx response whose JSON has `fileName` and `filePath` but neither
`size` nor `type`. -/
def wRespMissingFields : HttpResponse :=
  { status := 200,
    body := { fileName := some "a.txt", filePath := some "/files/a.txt",
              size := none, type := none } }

/-! ### Lemmas about one loop iteration and the whole loop -/

theorem processOne_attachment_isSome (env : Nat → StepEnv) (orig n i : Nat)
    (m : Message) :
    (processOne env orig n i m).attachment.isSome = stepSucceeds env m := by
  unfold processOne stepSucceeds
  cases hc : chosenFileName m with
  | none => rfl
  | some f =>
    cases he : env m.msgId with
    | excEarly => rfl
    | excLate => rfl
    | resp r => cases hu : upload_file r <;> simp [hu]

theorem processOne_effects_mem (env : Nat → StepEnv) (orig n i : Nat)
    (m : Message) :
    ∀ e ∈ (processOne env orig n i m).effects,
      e = Effect.replyEdit orig (progressText i n) ∨ e = Effect.getFile m.msgId ∨
      e = Effect.uploadCall m.msgId ∨ e = Effect.logError m.msgId := by
  unfold processOne
  cases hc : chosenFileName m with
  | none => intro e he; simp at he
  | some f =>
    cases he : env m.msgId with
    | excEarly =>
      intro e he
      simp only [List.mem_cons, List.not_mem_nil, or_false] at he
      tauto
    | excLate =>
      intro e he
      simp only [List.mem_cons, List.not_mem_nil, or_false] at he
      tauto
    | resp r =>
      intro e he
      cases hu : upload_file r <;> simp only [hu] at he <;>
        (simp only [List.mem_cons, List.not_mem_nil, or_false] at he; tauto)

theorem processOne_no_noteWrite (env : Nat → StepEnv) (orig n i : Nat)
    (m : Message) :
    ∀ e ∈ (processOne env orig n i m).effects, isNoteWrite e = false := by
  intro e he
  rcases processOne_effects_mem env orig n i m e he with rfl | rfl | rfl | rfl <;> rfl

theorem processOne_no_replyCreate (env : Nat → StepEnv) (orig n i : Nat)
    (m : Message) :
    ∀ e ∈ (processOne env orig n i m).effects, isReplyCreate e = false := by
  intro e he
  rcases processOne_effects_mem env orig n i m e he with rfl | rfl | rfl | rfl <;> rfl

theorem processOne_replyTarget (env : Nat → StepEnv) (orig n i : Nat)
    (m : Message) :
    ∀ e ∈ (processOne env orig n i m).effects, ∀ t, replyTarget e = some t → t = orig := by
  intro e he t ht
  rcases processOne_effects_mem env orig n i m e he with rfl | rfl | rfl | rfl <;>
    simp [replyTarget] at ht
  exact ht.symm

theorem processOne_logError_count (env : Nat → StepEnv) (orig n i : Nat)
    (m : Message) :
    ((processOne env orig n i m).effects.filter isLogError).length =
      (if (chosenFileName m).isSome && !(stepSucceeds env m) then 1 else 0) := by
  unfold processOne stepSucceeds
  cases hc : chosenFileName m with
  | none => rfl
  | some f =>
    cases he : env m.msgId with
    | excEarly => simp [isLogError]
    | excLate => simp [isLogError]
    | resp r => cases hu : upload_file r <;> simp [hu, isLogError]

theorem processOne_downloadSeq (env : Nat → StepEnv) (orig n i : Nat)
    (m : Message) :
    downloadSeq (processOne env orig n i m).effects =
      (if (chosenFileName m).isSome then [m.msgId] else []) := by
  unfold processOne
  cases hc : chosenFileName m with
  | none => rfl
  | some f =>
    cases he : env m.msgId with
    | excEarly => simp [downloadSeq]
    | excLate => simp [downloadSeq]
    | resp r => cases hu : upload_file r <;> simp [hu, downloadSeq]

theorem processOne_uploadSeq (env : Nat → StepEnv) (orig n i : Nat)
    (m : Message) :
    uploadSeq (processOne env orig n i m).effects =
      (if uploadAttempted env m then [m.msgId] else []) := by
  unfold processOne uploadAttempted
  cases hc : chosenFileName m with
  | none => rfl
  | some f =>
    cases he : env m.msgId with
    | excEarly => simp [uploadSeq]
    | excLate => simp [uploadSeq]
    | resp r => cases hu : upload_file r <;> simp [hu, uploadSeq]

theorem processLoop_atts_length (env : Nat → StepEnv) (orig n : Nat)
    (msgs : List Message) :
    ∀ i, (processLoop env orig n i msgs).2.length =
      (msgs.filter (fun m => stepSucceeds env m)).length := by
  induction msgs with
  | nil => intro i; rfl
  | cons m rest ih =>
    intro i
    have h := processOne_attachment_isSome env orig n i m
    simp only [processLoop, List.filter_cons]
    cases hs : stepSucceeds env m with
    | false =>
      rw [hs] at h
      cases ha : (processOne env orig n i m).attachment with
      | none => simpa using ih (i + 1)
      | some a => rw [ha] at h; simp at h
    | true =>
      rw [hs] at h
      cases ha : (processOne env orig n i m).attachment with
      | none => rw [ha] at h; simp at h
      | some a => simpa using ih (i + 1)

theorem processLoop_no_noteWrite (env : Nat → StepEnv) (orig n : Nat)
    (msgs : List Message) :
    ∀ i, ∀ e ∈ (processLoop env orig n i msgs).1, isNoteWrite e = false := by
  induction msgs with
  | nil => intro i e he; simp [processLoop] at he
  | cons m rest ih =>
    intro i e he
    simp only [processLoop, List.mem_append] at he
    rcases he with h | h
    · exact processOne_no_noteWrite env orig n i m e h
    · exact ih (i + 1) e h

theorem processLoop_no_replyCreate (env : Nat → StepEnv) (orig n : Nat)
    (msgs : List Message) :
    ∀ i, ∀ e ∈ (processLoop env orig n i msgs).1, isReplyCreate e = false := by
  induction msgs with
  | nil => intro i e he; simp [processLoop] at he
  | cons m rest ih =>
    intro i e he
    simp only [processLoop, List.mem_append] at he
    rcases he with h | h
    · exact processOne_no_replyCreate env orig n i m e h
    · exact ih (i + 1) e h

theorem processLoop_replyTarget (env : Nat → StepEnv) (orig n : Nat)
    (msgs : List Message) :
    ∀ i, ∀ e ∈ (processLoop env orig n i msgs).1, ∀ t,
      replyTarget e = some t → t = orig := by
  induction msgs with
  | nil => intro i e he; simp [processLoop] at he
  | cons m rest ih =>
    intro i e he
    simp only [processLoop, List.mem_append] at he
    rcases he with h | h
    · exact processOne_replyTarget env orig n i m e h
    · exact ih (i + 1) e h

theorem processLoop_logError_count (env : Nat → StepEnv) (orig n : Nat)
    (msgs : List Message) :
    ∀ i, ((processLoop env orig n i msgs).1.filter isLogError).length =
      (msgs.filter
        (fun m => (chosenFileName m).isSome && !(stepSucceeds env m))).length := by
  induction msgs with
  | nil => intro i; rfl
  | cons m rest ih =>
    intro i
    simp only [processLoop, List.filter_append, List.length_append, List.filter_cons]
    rw [processOne_logError_count env orig n i m, ih (i + 1)]
    cases hb : (chosenFileName m).isSome && !(stepSucceeds env m) <;> simp [Nat.add_comm]

theorem processLoop_downloadSeq (env : Nat → StepEnv) (orig n : Nat)
    (msgs : List Message) :
    ∀ i, downloadSeq (processLoop env orig n i msgs).1 =
      (msgs.filter (fun m => (chosenFileName m).isSome)).map Message.msgId := by
  induction msgs with
  | nil => intro i; rfl
  | cons m rest ih =>
    intro i
    simp only [processLoop, downloadSeq, List.filterMap_append, List.filter_cons]
    have h1 := processOne_downloadSeq env orig n i m
    have h2 := ih (i + 1)
    simp only [downloadSeq] at h1 h2
    rw [h1, h2]
    cases hb : (chosenFileName m).isSome <;> simp

theorem processLoop_uploadSeq (env : Nat → StepEnv) (orig n : Nat)
    (msgs : List Message) :
    ∀ i, uploadSeq (processLoop env orig n i msgs).1 =
      (msgs.filter (fun m => uploadAttempted env m)).map Message.msgId := by
  induction msgs with
  | nil => intro i; rfl
  | cons m rest ih =>
    intro i
    simp only [processLoop, uploadSeq, List.filterMap_append, List.filter_cons]
    have h1 := processOne_uploadSeq env orig n i m
    have h2 := ih (i + 1)
    simp only [uploadSeq] at h1 h2
    rw [h1, h2]
    cases hb : uploadAttempted env m <;> simp

/-! ### Lemmas about the finalizer body -/

theorem processLoop_atts_nil_iff (env : Nat → StepEnv) (orig n : Nat)
    (msgs : List Message) (i : Nat) :
    (processLoop env orig n i msgs).2 = [] ↔
      ∀ m ∈ msgs, stepSucceeds env m = false := by
  rw [← List.length_eq_zero, processLoop_atts_length, List.length_eq_zero,
    List.filter_eq_nil_iff]
  simp

theorem finalizeRecord_eq_of_total_failure (env : Nat → StepEnv) (noteOk : Bool)
    (orig : Message) (msgs : List Message)
    (hfail : ∀ m ∈ msgs, stepSucceeds env m = false) :
    finalizeRecord env noteOk orig msgs =
      Effect.replyCreate orig.msgId (headerText msgs.length) ::
        (processLoop env orig.msgId msgs.length 0 msgs).1 ++
        [Effect.replyEdit orig.msgId allFailText] := by
  have h := (processLoop_atts_nil_iff env orig.msgId msgs.length msgs 0).mpr hfail
  simp only [finalizeRecord, h, if_pos]

theorem finalizeRecord_eq_of_success (env : Nat → StepEnv) (noteOk : Bool)
    (orig : Message) (msgs : List Message)
    (hsucc : ∃ m ∈ msgs, stepSucceeds env m = true) :
    finalizeRecord env noteOk orig msgs =
      Effect.replyCreate orig.msgId (headerText msgs.length) ::
        (processLoop env orig.msgId msgs.length 0 msgs).1 ++
        [Effect.replyEdit orig.msgId creatingNoteText,
         Effect.noteWrite (captionOf msgs) (processLoop env orig.msgId msgs.length 0 msgs).2,
         Effect.replyEdit orig.msgId (if noteOk then savedText else noteFailText)] := by
  have h : ¬ (processLoop env orig.msgId msgs.length 0 msgs).2 = [] := by
    rw [processLoop_atts_nil_iff]
    intro hall
    obtain ⟨m, hm, hs⟩ := hsucc
    rw [hall m hm] at hs
    exact Bool.false_ne_true hs
  simp only [finalizeRecord, h, if_neg, ite_false]

theorem finalizeRecord_noteCount_of_total_failure (env : Nat → StepEnv)
    (noteOk : Bool) (orig : Message) (msgs : List Message)
    (hfail : ∀ m ∈ msgs, stepSucceeds env m = false) :
    noteCount (finalizeRecord env noteOk orig msgs) = 0 := by
  rw [finalizeRecord_eq_of_total_failure env noteOk orig msgs hfail]
  unfold noteCount
  rw [List.length_eq_zero, List.filter_eq_nil_iff]
  intro e he
  simp only [List.cons_append, List.mem_cons, List.mem_append,
    List.mem_singleton, List.not_mem_nil, or_false] at he
  rcases he with rfl | h | rfl
  · simp [isNoteWrite]
  · simp [processLoop_no_noteWrite env orig.msgId msgs.length msgs 0 e h]
  · simp [isNoteWrite]

theorem finalizeRecord_noteCount_of_success (env : Nat → StepEnv)
    (noteOk : Bool) (orig : Message) (msgs : List Message)
    (hsucc : ∃ m ∈ msgs, stepSucceeds env m = true) :
    noteCount (finalizeRecord env noteOk orig msgs) = 1 := by
  rw [finalizeRecord_eq_of_success env noteOk orig msgs hsucc]
  unfold noteCount
  rw [List.cons_append, List.filter_cons, List.filter_append]
  have h1 : isNoteWrite (Effect.replyCreate orig.msgId (headerText msgs.length)) = false := rfl
  have h2 : List.filter isNoteWrite (processLoop env orig.msgId msgs.length 0 msgs).1 = [] := by
    rw [List.filter_eq_nil_iff]
    intro e he
    simp [processLoop_no_noteWrite env orig.msgId msgs.length msgs 0 e he]
  rw [h1, h2]
  simp [isNoteWrite]

theorem finalizeRecord_noteWrite_mem (env : Nat → StepEnv) (noteOk : Bool)
    (orig : Message) (msgs : List Message) (c : String) (atts : List AttachmentObj)
    (hmem : Effect.noteWrite c atts ∈ finalizeRecord env noteOk orig msgs) :
    c = captionOf msgs ∧ atts = (processLoop env orig.msgId msgs.length 0 msgs).2 := by
  unfold finalizeRecord at hmem
  by_cases h : (processLoop env orig.msgId msgs.length 0 msgs).2 = []
  · rw [if_pos h] at hmem
    exfalso
    simp only [List.cons_append, List.mem_cons, List.mem_append,
      List.mem_singleton] at hmem
    rcases hmem with heq | hm | heq
    · exact absurd heq (by simp)
    · have := processLoop_no_noteWrite env orig.msgId msgs.length msgs 0 _ hm
      simp [isNoteWrite] at this
    · exact absurd heq (by simp)
  · rw [if_neg h] at hmem
    simp only [List.cons_append, List.mem_cons, List.mem_append,
      List.mem_singleton] at hmem
    rcases hmem with heq | hm | heq | heq | heq
    · exact absurd heq (by simp)
    · exfalso
      have := processLoop_no_noteWrite env orig.msgId msgs.length msgs 0 _ hm
      simp [isNoteWrite] at this
    · exact absurd heq (by simp)
    · obtain ⟨hc, ha⟩ := Effect.noteWrite.inj heq
      exact ⟨hc, ha⟩
    · exact absurd heq (by simp)

theorem firstCaption_first_nonempty (msgs : List Message)
    (hsome : ∃ m ∈ msgs, m.caption ≠ "") :
    ∃ pre mid post, msgs = pre ++ mid :: post ∧ (∀ m ∈ pre, m.caption = "") ∧
      mid.caption ≠ "" ∧ firstCaption msgs = mid.caption := by
  induction msgs with
  | nil => simp at hsome
  | cons m rest ih =>
    by_cases hm : m.caption = ""
    · have hrest : ∃ m ∈ rest, m.caption ≠ "" := by
        obtain ⟨x, hx, hxc⟩ := hsome
        rcases List.mem_cons.mp hx with rfl | hx2
        · exact absurd hm hxc
        · exact ⟨x, hx2, hxc⟩
      obtain ⟨pre, mid, post, heq, hpre, hmid, hfc⟩ := ih hrest
      refine ⟨m :: pre, mid, post, by rw [heq, List.cons_append], ?_, hmid, ?_⟩
      · intro x hx
        rcases List.mem_cons.mp hx with rfl | hx2
        · exact hm
        · exact hpre x hx2
      · rw [firstCaption, if_pos hm]
        exact hfc
    · exact ⟨[], m, rest, rfl, by simp, hm, by rw [firstCaption, if_neg hm]⟩

theorem firstCaption_of_all_empty (msgs : List Message)
    (hall : ∀ m ∈ msgs, m.caption = "") : firstCaption msgs = "" := by
  induction msgs with
  | nil => rfl
  | cons m rest ih =>
    rw [firstCaption, if_pos (hall m (List.mem_cons_self m rest))]
    exact ih (fun x hx => hall x (List.mem_cons_of_mem m hx))

theorem getLast?_shape {α : Type} (e0 : α) (l l2 : List α) (c : α) :
    (e0 :: (l ++ (l2 ++ [c]))).getLast? = some c := by
  rw [← List.append_assoc, ← List.cons_append, List.getLast?_concat]

/-! ### Claim C4 -/

/-- C4, counterexample: the code accepts a 2xx response whose JSON carries
`fileName` and `filePath` but neither `size` nor `type`, while the claim
says any of the four fields missing makes the upload a failure. -/
theorem C4_counterexample :
    (upload_file (some wRespMissingFields)).isSome = true ∧
    uploadSuccessSpec (some wRespMissingFields) = false :=
  ⟨rfl, rfl⟩

/-- C4, amended: the upload is treated as successful exactly when the POST
did not raise, `raise_for_status` passed (status below 400 — `requests`
raises only for 4xx/5xx), and the response JSON contains `fileName` and
`filePath`; absence of `size` or `type` does not make the upload fail. -/
theorem C4_upload_acceptance (resp : Option HttpResponse) :
    (upload_file resp).isSome = true ↔
      ∃ r, resp = some r ∧ r.status < 400 ∧
        r.body.fileName.isSome = true ∧ r.body.filePath.isSome = true := by
  cases resp with
  | none => simp [upload_file]
  | some r =>
    simp only [upload_file]
    by_cases h4 : 400 ≤ r.status
    · rw [if_pos h4]
      simp only [Option.isSome_none, Bool.false_eq_true, false_iff]
      rintro ⟨r', heq, hlt, _, _⟩
      cases Option.some.inj heq
      omega
    · rw [if_neg h4]
      by_cases hf : r.body.filePath.isSome = true ∧ r.body.fileName.isSome = true
      · rw [if_pos (by rw [hf.1, hf.2]; rfl)]
        simp only [Option.isSome_some, true_iff]
        exact ⟨r, rfl, by omega, hf.2, hf.1⟩
      · have hcond : (r.body.filePath.isSome && r.body.fileName.isSome) = false := by
          cases hp : r.body.filePath.isSome <;> cases hn : r.body.fileName.isSome <;>
            simp_all
        rw [if_neg (by rw [hcond]; simp)]
        simp only [Option.isSome_none, Bool.false_eq_true, false_iff]
        rintro ⟨r', heq, hlt, hn, hp⟩
        cases Option.some.inj heq
        exact hf ⟨hp, hn⟩

/-! ### Claim C8 -/

/-- C8: for every attachment processed during finalization the transient
local file no longer exists after the upload attempt, on every exit path —
successful upload, failed upload, early or late exception (the environment
`env` ranges over all of them) — and `upload_file`'s own `finally` clause
removes the file whatever state it is in. -/
theorem C8_transient_file_removed :
    (∀ (env : Nat → StepEnv) (orig n i : Nat) (m : Message),
      (processOne env orig n i m).fileExistsAfter = false) ∧
    (∀ b : Bool, runFileOps uploadFileCleanup b = false) := by
  constructor
  · intro env orig n i m
    unfold processOne
    cases hc : chosenFileName m with
    | none => rfl
    | some f =>
      cases he : env m.msgId with
      | excEarly => rfl
      | excLate => rfl
      | resp r =>
        cases hu : upload_file r <;> simp [hu, runFileOps, attemptFileOps, uploadFileCleanup]
  · intro b; rfl

/-! ### Claim C2 -/

/-- C2: for every finalized group in which every message either fails to
upload or carries no recognized attachment kind, no note-write call occurs
and the status reply's final update is the explicit all-failed text. -/
theorem C2_total_failure (env : Nat → StepEnv) (noteOk : Bool) (orig : Message)
    (msgs : List Message)
    (hfail : ∀ m ∈ msgs, stepSucceeds env m = false) :
    noteCount (finalizeRecord env noteOk orig msgs) = 0 ∧
    (finalizeRecord env noteOk orig msgs).getLast? =
      some (Effect.replyEdit orig.msgId allFailText) := by
  refine ⟨finalizeRecord_noteCount_of_total_failure env noteOk orig msgs hfail, ?_⟩
  rw [finalizeRecord_eq_of_total_failure env noteOk orig msgs hfail]
  exact getLast?_shape _ _ [] _

theorem C2_witness :
    (∀ m ∈ [wMsgDoc], stepSucceeds wEnvFail m = false) ∧
    (noteCount (finalizeRecord wEnvFail true wMsgDoc [wMsgDoc]) = 0 ∧
     (finalizeRecord wEnvFail true wMsgDoc [wMsgDoc]).getLast? =
       some (Effect.replyEdit wMsgDoc.msgId allFailText)) :=
  ⟨by decide, C2_total_failure wEnvFail true wMsgDoc [wMsgDoc] (by decide)⟩

/-! ### Claim C3 -/

/-- C3: in a finalized group of N recognized file messages in which M
uploads fail with 0 < M < N and the final note write succeeds, each failure
is logged (M log-error effects), processing continues through every message
(N download attempts), the note is still written — exactly one note-write,
whose attachment list has N − M entries — and the status reply ends in the
success text. -/
theorem C3_partial_failure (env : Nat → StepEnv) (orig : Message)
    (msgs : List Message)
    (hrec : ∀ m ∈ msgs, (chosenFileName m).isSome = true)
    (hM0 : 0 < (msgs.filter (fun m => !(stepSucceeds env m))).length)
    (hMN : (msgs.filter (fun m => !(stepSucceeds env m))).length < msgs.length) :
    ((finalizeRecord env true orig msgs).filter isLogError).length =
        (msgs.filter (fun m => !(stepSucceeds env m))).length ∧
    (downloadSeq (finalizeRecord env true orig msgs)).length = msgs.length ∧
    noteCount (finalizeRecord env true orig msgs) = 1 ∧
    (∀ c atts, Effect.noteWrite c atts ∈ finalizeRecord env true orig msgs →
        atts.length =
          msgs.length - (msgs.filter (fun m => !(stepSucceeds env m))).length) ∧
    (finalizeRecord env true orig msgs).getLast? =
        some (Effect.replyEdit orig.msgId savedText) := by
  have hsplit := @List.length_eq_length_filter_add _ msgs
    (fun m => stepSucceeds env m)
  have hS : 0 < (msgs.filter (fun m => stepSucceeds env m)).length := by omega
  have hsucc : ∃ m ∈ msgs, stepSucceeds env m = true := by
    obtain ⟨m, hm⟩ := List.exists_mem_of_length_pos hS
    have := List.mem_filter.mp hm
    exact ⟨m, this.1, this.2⟩
  have heq := finalizeRecord_eq_of_success env true orig msgs hsucc
  refine ⟨?_, ?_, finalizeRecord_noteCount_of_success env true orig msgs hsucc, ?_, ?_⟩
  · have h2 := processLoop_logError_count env orig.msgId msgs.length msgs 0
    have h3 : msgs.filter
        (fun m => (chosenFileName m).isSome && !(stepSucceeds env m)) =
        msgs.filter (fun m => !(stepSucceeds env m)) := by
      apply List.filter_congr
      intro m hm
      rw [hrec m hm]
      simp
    have h4 : List.filter isLogError
        [Effect.replyEdit orig.msgId creatingNoteText,
         Effect.noteWrite (captionOf msgs) (processLoop env orig.msgId msgs.length 0 msgs).2,
         Effect.replyEdit orig.msgId (if true = true then savedText else noteFailText)] =
        [] := rfl
    rw [heq, List.cons_append, List.filter_cons, List.filter_append, h4]
    simp only [isLogError, Bool.false_eq_true, if_false, List.append_nil]
    rw [h2, h3]
  · rw [heq]
    simp only [downloadSeq, List.cons_append, List.filterMap_cons,
      List.filterMap_append]
    have h1 := processLoop_downloadSeq env orig.msgId msgs.length msgs 0
    simp only [downloadSeq] at h1
    rw [h1]
    have h2 : msgs.filter (fun m => (chosenFileName m).isSome) = msgs :=
      List.filter_eq_self.mpr hrec
    rw [h2]
    simp
  · intro c atts hmem
    obtain ⟨hc, ha⟩ := finalizeRecord_noteWrite_mem env true orig msgs c atts hmem
    rw [ha, processLoop_atts_length]
    omega
  · rw [heq]
    exact getLast?_shape _ _ [_, _] _

theorem C3_witness :
    (∀ m ∈ [wMsgDoc, wMsgVideo], (chosenFileName m).isSome = true) ∧
    (0 < ([wMsgDoc, wMsgVideo].filter
      (fun m => !(stepSucceeds wEnvMixed m))).length) ∧
    (([wMsgDoc, wMsgVideo].filter
      (fun m => !(stepSucceeds wEnvMixed m))).length < [wMsgDoc, wMsgVideo].length) ∧
    (((finalizeRecord wEnvMixed true wMsgDoc [wMsgDoc, wMsgVideo]).filter
        isLogError).length =
      ([wMsgDoc, wMsgVideo].filter (fun m => !(stepSucceeds wEnvMixed m))).length ∧
     (downloadSeq (finalizeRecord wEnvMixed true wMsgDoc [wMsgDoc, wMsgVideo])).length =
       [wMsgDoc, wMsgVideo].length ∧
     noteCount (finalizeRecord wEnvMixed true wMsgDoc [wMsgDoc, wMsgVideo]) = 1 ∧
     (∀ c atts,
        Effect.noteWrite c atts ∈ finalizeRecord wEnvMixed true wMsgDoc [wMsgDoc, wMsgVideo] →
        atts.length = [wMsgDoc, wMsgVideo].length -
          ([wMsgDoc, wMsgVideo].filter (fun m => !(stepSucceeds wEnvMixed m))).length) ∧
     (finalizeRecord wEnvMixed true wMsgDoc [wMsgDoc, wMsgVideo]).getLast? =
       some (Effect.replyEdit wMsgDoc.msgId savedText)) :=
  ⟨by decide, by decide, by decide,
    C3_partial_failure wEnvMixed wMsgDoc [wMsgDoc, wMsgVideo]
      (by decide) (by decide) (by decide)⟩

/-! ### Claim C5 -/

/-- C5: for every finalized group, the note content is the first non-empty
caption among the group's messages in arrival order; if no message carries
a caption, a fixed placeholder is used that differs between a single-file
group and a multi-file group. -/
theorem C5_caption (env : Nat → StepEnv) (noteOk : Bool) (orig : Message)
    (msgs : List Message) (hne : msgs ≠ []) :
    (∀ c atts, Effect.noteWrite c atts ∈ finalizeRecord env noteOk orig msgs →
        c = captionOf msgs) ∧
    ((∃ m ∈ msgs, m.caption ≠ "") →
      ∃ pre mid post, msgs = pre ++ mid :: post ∧ (∀ m ∈ pre, m.caption = "") ∧
        mid.caption ≠ "" ∧ captionOf msgs = mid.caption) ∧
    ((∀ m ∈ msgs, m.caption = "") →
      captionOf msgs =
        (if msgs.length = 1 then singlePlaceholder else groupPlaceholder)) ∧
    singlePlaceholder ≠ groupPlaceholder := by
  refine ⟨?_, ?_, ?_, by decide⟩
  · intro c atts hmem
    exact (finalizeRecord_noteWrite_mem env noteOk orig msgs c atts hmem).1
  · intro hsome
    obtain ⟨pre, mid, post, heq, hpre, hmid, hfc⟩ :=
      firstCaption_first_nonempty msgs hsome
    refine ⟨pre, mid, post, heq, hpre, hmid, ?_⟩
    rw [captionOf, hfc, if_neg hmid]
  · intro hall
    rw [captionOf, firstCaption_of_all_empty msgs hall, if_pos rfl]

theorem C5_witness :
    ([wMsgDoc, wMsgPhoto] ≠ ([] : List Message)) ∧
    ((∀ c atts,
        Effect.noteWrite c atts ∈ finalizeRecord wEnvOK true wMsgDoc [wMsgDoc, wMsgPhoto] →
        c = captionOf [wMsgDoc, wMsgPhoto]) ∧
     ((∃ m ∈ [wMsgDoc, wMsgPhoto], m.caption ≠ "") →
       ∃ pre mid post, [wMsgDoc, wMsgPhoto] = pre ++ mid :: post ∧
         (∀ m ∈ pre, m.caption = "") ∧ mid.caption ≠ "" ∧
         captionOf [wMsgDoc, wMsgPhoto] = mid.caption) ∧
     ((∀ m ∈ [wMsgDoc, wMsgPhoto], m.caption = "") →
       captionOf [wMsgDoc, wMsgPhoto] =
         (if [wMsgDoc, wMsgPhoto].length = 1 then singlePlaceholder
          else groupPlaceholder)) ∧
     singlePlaceholder ≠ groupPlaceholder) :=
  ⟨by decide, C5_caption wEnvOK true wMsgDoc [wMsgDoc, wMsgPhoto] (by decide)⟩

/-! ### Injectivity of the synthetic group id -/

theorem ofDigitsRev_decDigitsRev (n : Nat) : ofDigitsRev (decDigitsRev n) = n := by
  induction n using Nat.strong_induction_on with
  | _ n ih =>
    rw [decDigitsRev]
    by_cases h : n = 0
    · simp [h, ofDigitsRev]
    · rw [dif_neg h]
      have hlt : n / 10 < n := Nat.div_lt_self (Nat.pos_of_ne_zero h) (by omega)
      rw [ofDigitsRev, ih (n / 10) hlt]
      omega

theorem decDigitsRev_lt_ten (n : Nat) : ∀ d ∈ decDigitsRev n, d < 10 := by
  induction n using Nat.strong_induction_on with
  | _ n ih =>
    rw [decDigitsRev]
    by_cases h : n = 0
    · simp [h]
    · rw [dif_neg h]
      intro d hd
      rcases List.mem_cons.mp hd with rfl | hd2
      · exact Nat.mod_lt n (by omega)
      · exact ih (n / 10) (Nat.div_lt_self (Nat.pos_of_ne_zero h) (by omega)) d hd2

theorem digitChar_inj : ∀ d1 < 10, ∀ d2 < 10, digitChar d1 = digitChar d2 → d1 = d2 := by
  decide

theorem map_digitChar_inj :
    ∀ l1 l2 : List Nat, (∀ d ∈ l1, d < 10) → (∀ d ∈ l2, d < 10) →
      l1.map digitChar = l2.map digitChar → l1 = l2 := by
  intro l1
  induction l1 with
  | nil =>
    intro l2 _ _ h
    cases l2 with
    | nil => rfl
    | cons b t => simp at h
  | cons a t ih =>
    intro l2 h1 h2 h
    cases l2 with
    | nil => simp at h
    | cons b t2 =>
      simp only [List.map_cons, List.cons.injEq] at h
      have ha := digitChar_inj a (h1 a (List.mem_cons_self a t)) b
        (h2 b (List.mem_cons_self b t2)) h.1
      have ht := ih t2 (fun d hd => h1 d (List.mem_cons_of_mem a hd))
        (fun d hd => h2 d (List.mem_cons_of_mem b hd)) h.2
      rw [ha, ht]

theorem natDecimal_inj : ∀ n1 n2 : Nat, natDecimal n1 = natDecimal n2 → n1 = n2 := by
  have hmk : ∀ l1 l2 : List Char, String.mk l1 = String.mk l2 → l1 = l2 := by
    intro l1 l2 h
    exact congrArg String.data h
  have key : ∀ n : Nat, n ≠ 0 →
      ∀ m : Nat, m ≠ 0 → natDecimal n = natDecimal m → n = m := by
    intro n hn m hm h
    rw [natDecimal, if_neg hn, natDecimal, if_neg hm] at h
    have hdata := hmk _ _ h
    have hrev := map_digitChar_inj _ _
      (fun d hd => decDigitsRev_lt_ten n d (List.mem_reverse.mp hd))
      (fun d hd => decDigitsRev_lt_ten m d (List.mem_reverse.mp hd)) hdata
    have hdig : decDigitsRev n = decDigitsRev m :=
      List.reverse_injective hrev
    have := congrArg ofDigitsRev hdig
    rwa [ofDigitsRev_decDigitsRev, ofDigitsRev_decDigitsRev] at this
  have zero_case : ∀ n : Nat, n ≠ 0 → natDecimal n ≠ "0" := by
    intro n hn h
    rw [natDecimal, if_neg hn] at h
    have hdata := hmk _ _ h
    have hne : decDigitsRev n ≠ [] := by
      rw [decDigitsRev, dif_neg hn]
      simp
    cases hd : (decDigitsRev n).reverse with
    | nil => exact hne (by simpa using congrArg List.reverse hd)
    | cons a t =>
      rw [hd] at hdata
      cases t with
      | cons b t2 => simp at hdata
      | nil =>
        simp only [List.map_cons, List.map_nil] at hdata
        have hch : digitChar a = '0' := by injection hdata
        have ha : a = 0 := by
          have halt : a < 10 :=
            decDigitsRev_lt_ten n a
              (List.mem_reverse.mp (by rw [hd]; exact List.mem_cons_self a []))
          have hall : ∀ x < 10, digitChar x = '0' → x = 0 := by decide
          exact hall a halt hch
        have hlist : decDigitsRev n = [0] := by
          have := congrArg List.reverse hd
          simpa [ha] using this
        have hval := ofDigitsRev_decDigitsRev n
        rw [hlist] at hval
        simp [ofDigitsRev] at hval
        exact hn hval.symm
  intro n1 n2 h
  by_cases h1 : n1 = 0
  · by_cases h2 : n2 = 0
    · rw [h1, h2]
    · subst h1
      rw [natDecimal, if_pos rfl] at h
      exact absurd h.symm (zero_case n2 h2)
  · by_cases h2 : n2 = 0
    · subst h2
      have h0 : natDecimal 0 = "0" := rfl
      rw [h0] at h
      exact absurd h (zero_case n1 h1)
    · exact key n1 h1 n2 h2 h

theorem syntheticGroupId_inj :
    ∀ k1 k2 : Nat, syntheticGroupId k1 = syntheticGroupId k2 → k1 = k2 := by
  intro k1 k2 h
  unfold syntheticGroupId at h
  have hdata := congrArg String.data h
  rw [String.data_append, String.data_append] at hdata
  have := List.append_cancel_left hdata
  exact natDecimal_inj k1 k2 (String.ext this)

theorem natDecimal_all_digits (n : Nat) :
    ∀ c ∈ (natDecimal n).data, c.isDigit = true := by
  intro c hc
  rw [natDecimal] at hc
  by_cases h : n = 0
  · rw [if_pos h] at hc
    simp only [show ("0" : String).data = ['0'] from rfl, List.mem_singleton] at hc
    subst hc; decide
  · rw [if_neg h] at hc
    have hc2 : c ∈ ((decDigitsRev n).reverse).map digitChar := hc
    obtain ⟨d, hd, rfl⟩ := List.mem_map.mp hc2
    have hdlt : d < 10 := decDigitsRev_lt_ten n d (List.mem_reverse.mp hd)
    have hall : ∀ x < 10, (digitChar x).isDigit = true := by decide
    exact hall d hdlt

theorem syntheticGroupId_ne_digits (k : Nat) (gid : String)
    (hdig : gid.data.all Char.isDigit = true) : syntheticGroupId k ≠ gid := by
  intro h
  have hdata := congrArg String.data h
  rw [syntheticGroupId, String.data_append] at hdata
  have hs : 's' ∈ gid.data := by
    rw [← hdata]
    apply List.mem_append_left
    decide
  have := List.all_eq_true.mp hdig 's' hs
  simp [Char.isDigit] at this

/-! ### Trace lemmas -/

theorem runEvents_append (env : Nat → StepEnv) (ok : Bool) (l1 l2 : List Event) :
    ∀ s, runEvents env ok s (l1 ++ l2) =
      ((runEvents env ok (runEvents env ok s l1).1 l2).1,
       (runEvents env ok s l1).2 ++ (runEvents env ok (runEvents env ok s l1).1 l2).2) := by
  induction l1 with
  | nil => intro s; simp [runEvents]
  | cons e t ih =>
    intro s
    simp only [List.cons_append, runEvents, List.append_eq]
    rw [ih]
    simp [List.append_assoc]

theorem handle_file_first (gid : String) (m : Message)
    (hm : m.mediaGroupId = some gid) :
    handle_file initState m = (stateAfterInbounds gid m [], []) := by
  simp only [handle_file, initState, hm, lookupGroup, setGroup, cancelByName,
    List.map_nil, List.nil_append, stateAfterInbounds, groupJobs, List.range_succ,
    List.range_zero, List.map_append, List.map_cons, List.length_nil]
  simp

theorem groupJobs_succ (gid : String) (orig : Message) (n : Nat) :
    cancelByName (groupJobs gid orig n) gid ++
      [{ jobId := n, jobName := some gid, delay := MEDIA_GROUP_COLLECTION_DELAY,
         ctxGroupId := gid, ctxOriginal := orig, removed := false }] =
    groupJobs gid orig (n + 1) := by
  unfold cancelByName groupJobs
  rw [List.map_map, List.range_succ, List.map_append]
  congr 1
  · apply List.map_congr_left
    intro k hk
    have hk2 : k < n := List.mem_range.mp hk
    have h1 : k + 1 < n + 1 := by omega
    simp [Function.comp, cancelOne, h1]
  · simp

theorem handle_file_step (gid : String) (m m1 : Message) (acc : List Message)
    (hm : m.mediaGroupId = some gid) :
    handle_file (stateAfterInbounds gid m1 acc) m =
      (stateAfterInbounds gid m1 (acc ++ [m]), []) := by
  simp only [handle_file, stateAfterInbounds, hm, lookupGroup, if_pos]
  rw [setGroup]
  simp only [if_pos rfl]
  rw [groupJobs_succ gid m1 (acc.length + 1)]
  simp [List.cons_append, List.length_append]

theorem runInbounds_from (env : Nat → StepEnv) (ok : Bool) (gid : String)
    (m1 : Message) :
    ∀ (rest acc : List Message), (∀ m ∈ rest, m.mediaGroupId = some gid) →
      runEvents env ok (stateAfterInbounds gid m1 acc) (rest.map Event.inbound) =
        (stateAfterInbounds gid m1 (acc ++ rest), []) := by
  intro rest
  induction rest with
  | nil => intro acc _; simp [runEvents]
  | cons m t ih =>
    intro acc hall
    simp only [List.map_cons, runEvents, stepEvent]
    rw [handle_file_step gid m m1 acc (hall m (List.mem_cons_self m t))]
    rw [ih (acc ++ [m]) (fun x hx => hall x (List.mem_cons_of_mem m hx))]
    simp [List.append_assoc]

theorem runInbounds (env : Nat → StepEnv) (ok : Bool) (gid : String)
    (m1 : Message) (rest : List Message) (hm1 : m1.mediaGroupId = some gid)
    (hrest : ∀ m ∈ rest, m.mediaGroupId = some gid) :
    run env ok ((m1 :: rest).map Event.inbound) =
      (stateAfterInbounds gid m1 rest, []) := by
  simp only [run, List.map_cons, runEvents, stepEvent]
  rw [handle_file_first gid m1 hm1]
  rw [runInbounds_from env ok gid m1 rest [] hrest]
  simp

theorem liveInv_stateAfterInbounds (gid : String) (m1 : Message)
    (acc : List Message) :
    LiveInv gid m1 (m1 :: acc) (acc.length + 1) (stateAfterInbounds gid m1 acc) := by
  refine ⟨rfl, ?_, ?_, ?_⟩
  · simp only [stateAfterInbounds, groupJobs]
    apply List.mem_map.mpr
    refine ⟨acc.length, List.mem_range.mpr (by omega), ?_⟩
    simp [liveJob]
  · intro j hj hrem
    simp only [stateAfterInbounds, groupJobs] at hj
    obtain ⟨k, hk, rfl⟩ := List.mem_map.mp hj
    have hk2 : k < acc.length + 1 := List.mem_range.mp hk
    have hnot : ¬ (k + 1 < acc.length + 1) := by simpa using hrem
    have hkeq : k = acc.length := by omega
    subst hkeq
    simp [liveJob]
  · intro j hj hid
    simp only [stateAfterInbounds, groupJobs] at hj
    obtain ⟨k, hk, rfl⟩ := List.mem_map.mp hj
    simp only [Nat.add_sub_cancel] at hid
    have hkeq : k = acc.length := hid
    subst hkeq
    simp [liveJob]

theorem fireJob_not_found (env : Nat → StepEnv) (ok : Bool) (s : BotState)
    (jid : Nat) (h : findJob s.jobs jid = none) :
    fireJob env ok s jid = (s, []) := by
  simp [fireJob, h]

theorem fireJob_removed (env : Nat → StepEnv) (ok : Bool) (s : BotState)
    (jid : Nat) (j : Job) (h : findJob s.jobs jid = some j)
    (hr : j.removed = true) :
    fireJob env ok s jid =
      ({ s with jobs := s.jobs.filter (fun j2 => j2.jobId != jid) }, []) := by
  simp [fireJob, h, hr]

theorem fireJob_live (env : Nat → StepEnv) (ok : Bool) (s : BotState)
    (jid : Nat) (j : Job) (h : findJob s.jobs jid = some j)
    (hr : j.removed = false) :
    fireJob env ok s jid =
      process_media_group env ok
        { s with jobs := s.jobs.filter (fun j2 => j2.jobId != jid) }
        j.ctxGroupId j.ctxOriginal := by
  simp [fireJob, h, hr]

theorem process_media_group_found (env : Nat → StepEnv) (ok : Bool)
    (gid : String) (orig : Message) (grec : GroupRecord) (s : BotState)
    (hmg : s.mediaGroups = [(gid, grec)]) (hne : grec.messages ≠ []) :
    process_media_group env ok s gid orig =
      ({ s with mediaGroups := [] }, finalizeRecord env ok orig grec.messages) := by
  unfold process_media_group
  rw [hmg]
  simp [lookupGroup, removeGroup, hne]

theorem runFires_done (env : Nat → StepEnv) (ok : Bool) :
    ∀ (evs : List Event) (s : BotState), s.mediaGroups = [] →
      allRemoved s.jobs → allFires evs →
      (runEvents env ok s evs).2 = [] ∧
      (runEvents env ok s evs).1.mediaGroups = [] ∧
      allRemoved (runEvents env ok s evs).1.jobs := by
  intro evs
  induction evs with
  | nil => intro s h1 h2 _; exact ⟨rfl, h1, h2⟩
  | cons e t ih =>
    intro s h1 h2 hf
    have he := hf e (List.mem_cons_self e t)
    cases e with
    | inbound m => simp [isFireEvent] at he
    | fire jid =>
      have hstep : ∃ s', stepEvent env ok s (Event.fire jid) = (s', []) ∧
          s'.mediaGroups = [] ∧ allRemoved s'.jobs := by
        cases hf2 : findJob s.jobs jid with
        | none => exact ⟨s, by simp [stepEvent, fireJob_not_found env ok s jid hf2], h1, h2⟩
        | some j =>
          have hjmem : j ∈ s.jobs := List.mem_of_find?_eq_some hf2
          have hrem : j.removed = true := h2 j hjmem
          refine ⟨{ s with jobs := s.jobs.filter (fun j2 => j2.jobId != jid) },
            by simp [stepEvent, fireJob_removed env ok s jid j hf2 hrem], h1, ?_⟩
          intro j2 hj2
          exact h2 j2 (List.mem_of_mem_filter hj2)
      obtain ⟨s', hs', hmg, har⟩ := hstep
      have hrest := ih s' hmg har (fun x hx => hf x (List.mem_cons_of_mem _ hx))
      simp only [runEvents, hs']
      exact ⟨by simp [hrest.1], hrest.2.1, hrest.2.2⟩

theorem runFires_live (env : Nat → StepEnv) (ok : Bool) (gid : String)
    (m1 : Message) (msgs : List Message) (n : Nat) (hne : msgs ≠ []) :
    ∀ (evs : List Event) (s : BotState), LiveInv gid m1 msgs n s → allFires evs →
      (runEvents env ok s evs).2 =
        (if Event.fire (n - 1) ∈ evs then finalizeRecord env ok m1 msgs else []) := by
  intro evs
  induction evs with
  | nil => intro s _ _; simp [runEvents]
  | cons e t ih =>
    intro s hinv hf
    obtain ⟨hmg, hlive, hunique, hid⟩ := hinv
    have he := hf e (List.mem_cons_self e t)
    cases e with
    | inbound m => simp [isFireEvent] at he
    | fire jid =>
      by_cases hjid : jid = n - 1
      · subst hjid
        have hfind : findJob s.jobs (n - 1) = some (liveJob gid m1 n) := by
          cases hf2 : findJob s.jobs (n - 1) with
          | none =>
            exfalso
            have hnone := List.find?_eq_none.mp hf2 (liveJob gid m1 n) hlive
            simp [liveJob] at hnone
          | some j =>
            have hpred := List.find?_some hf2
            have hmem := List.mem_of_find?_eq_some hf2
            have hjid2 : j.jobId = n - 1 := by simpa using hpred
            rw [hid j hmem hjid2]
        have hfire := fireJob_live env ok s (n - 1) (liveJob gid m1 n) hfind rfl
        have hproc := process_media_group_found env ok gid m1
          { messages := msgs, originalMessage := m1 }
          { s with jobs := s.jobs.filter (fun j2 => j2.jobId != n - 1) }
          hmg hne
        have hstep : stepEvent env ok s (Event.fire (n - 1)) =
            ({ mediaGroups := [],
               jobs := s.jobs.filter (fun j2 => j2.jobId != n - 1),
               nextJobId := s.nextJobId }, finalizeRecord env ok m1 msgs) := by
          show fireJob env ok s (n - 1) = _
          rw [hfire]
          show process_media_group env ok _ gid m1 = _
          rw [hproc]
        have hdone := runFires_done env ok t
          { mediaGroups := [],
            jobs := s.jobs.filter (fun j2 => j2.jobId != n - 1),
            nextJobId := s.nextJobId }
          rfl
          (by
            intro j2 hj2
            have hj2mem := List.mem_of_mem_filter hj2
            have hj2ne : j2.jobId ≠ n - 1 := by
              have := List.of_mem_filter hj2
              simpa using this
            cases hr : j2.removed with
            | true => rfl
            | false =>
              exfalso
              exact hj2ne (by rw [hunique j2 hj2mem hr]; rfl))
          (fun x hx => hf x (List.mem_cons_of_mem _ hx))
        simp only [runEvents, hstep]
        rw [hdone.1]
        simp

      · have hstep : ∃ s', stepEvent env ok s (Event.fire jid) = (s', []) ∧
            LiveInv gid m1 msgs n s' := by
          cases hf2 : findJob s.jobs jid with
          | none =>
            exact ⟨s, by simp [stepEvent, fireJob_not_found env ok s jid hf2],
              hmg, hlive, hunique, hid⟩
          | some j =>
            have hpred := List.find?_some hf2
            have hmem := List.mem_of_find?_eq_some hf2
            have hjjid : j.jobId = jid := by simpa using hpred
            have hrem : j.removed = true := by
              cases hr : j.removed with
              | true => rfl
              | false =>
                exfalso
                apply hjid
                rw [← hjjid, hunique j hmem hr]
                rfl
            refine ⟨{ s with jobs := s.jobs.filter (fun j2 => j2.jobId != jid) },
              by simp [stepEvent, fireJob_removed env ok s jid j hf2 hrem],
              hmg, ?_, ?_, ?_⟩
            · apply List.mem_filter.mpr
              refine ⟨hlive, ?_⟩
              simp only [liveJob, bne_iff_ne, ne_eq]
              omega
            · intro j2 hj2 hr2
              exact hunique j2 (List.mem_of_mem_filter hj2) hr2
            · intro j2 hj2 hid2
              exact hid j2 (List.mem_of_mem_filter hj2) hid2
        obtain ⟨s', hs', hinv'⟩ := hstep
        simp only [runEvents, hs']
        rw [ih s' hinv' (fun x hx => hf x (List.mem_cons_of_mem _ hx))]
        have hne2 : Event.fire (n - 1) ≠ Event.fire jid := by
          intro hcontra
          exact hjid (Event.fire.inj hcontra).symm
        by_cases hmem2 : Event.fire (n - 1) ∈ t
        · simp [hmem2, List.mem_cons, hne2]
        · simp [hmem2, List.mem_cons, hne2]

theorem run_trace_effects (env : Nat → StepEnv) (ok : Bool) (gid : String)
    (m1 : Message) (rest : List Message) (evs : List Event)
    (hm1 : m1.mediaGroupId = some gid)
    (hrest : ∀ m ∈ rest, m.mediaGroupId = some gid)
    (hfires : allFires evs) :
    (run env ok ((m1 :: rest).map Event.inbound ++ evs)).2 =
      (if Event.fire rest.length ∈ evs then
        finalizeRecord env ok m1 (m1 :: rest) else []) := by
  have h1 := runInbounds env ok gid m1 rest hm1 hrest
  rw [run] at h1 ⊢
  rw [runEvents_append, h1]
  have h2 := runFires_live env ok gid m1 (m1 :: rest) (rest.length + 1)
    (by simp) evs (stateAfterInbounds gid m1 rest)
    (liveInv_stateAfterInbounds gid m1 rest) hfires
  simp only [Nat.add_sub_cancel] at h2
  simp [h2]

theorem finalizeRecord_noteCount_le_one (env : Nat → StepEnv) (ok : Bool)
    (orig : Message) (msgs : List Message) :
    noteCount (finalizeRecord env ok orig msgs) ≤ 1 := by
  by_cases h : ∃ m ∈ msgs, stepSucceeds env m = true
  · rw [finalizeRecord_noteCount_of_success env ok orig msgs h]
  · have h2 : ∀ m ∈ msgs, stepSucceeds env m = false := by
      intro m hm
      cases hb : stepSucceeds env m with
      | false => rfl
      | true => exact absurd ⟨m, hm, hb⟩ h
    rw [finalizeRecord_noteCount_of_total_failure env ok orig msgs h2]
    omega

theorem finalizeRecord_atts_le (env : Nat → StepEnv) (ok : Bool)
    (orig : Message) (msgs : List Message) (c : String)
    (atts : List AttachmentObj)
    (hmem : Effect.noteWrite c atts ∈ finalizeRecord env ok orig msgs) :
    atts.length ≤ msgs.length := by
  obtain ⟨_, ha⟩ := finalizeRecord_noteWrite_mem env ok orig msgs c atts hmem
  rw [ha, processLoop_atts_length]
  exact List.length_filter_le _ msgs

/-! ### Claim C1 -/

/-- C1, counterexample: a group of one file message is accumulated and its
timer fires (the group is finalized — the effect trace is non-empty, ending
in the failure edit), yet zero note-write calls occur because the single
upload failed; the claim demands exactly one note-write call for every
group. -/
theorem C1_counterexample :
    noteCount (run wEnvFail true [Event.inbound wMsgDoc, Event.fire 0]).2 = 0 ∧
    (run wEnvFail true [Event.inbound wMsgDoc, Event.fire 0]).2 ≠ [] := by
  constructor
  · rfl
  · intro h
    have : ([] : List Effect).length = 6 := by
      conv_lhs => rw [← h]
      rfl
    simp at this

/-- C1, amended: for every group of N file messages arriving before the
timer fires, at most one note-write call is made — exactly one when at
least one upload succeeds and the pending (most recently scheduled) timer
fires — containing at most N attachment descriptors; and because the
finalizer removes the group's record from the table before processing and
returns as a no-op when the record is absent, no group id is ever finalized
twice (any number of further fire events produces no further note-write). -/
theorem C1_single_finalize (env : Nat → StepEnv) (ok : Bool) (gid : String)
    (m1 : Message) (rest : List Message) (evs : List Event)
    (hm1 : m1.mediaGroupId = some gid)
    (hrest : ∀ m ∈ rest, m.mediaGroupId = some gid)
    (hfires : allFires evs) :
    noteCount (run env ok ((m1 :: rest).map Event.inbound ++ evs)).2 ≤ 1 ∧
    (∀ c atts,
        Effect.noteWrite c atts ∈
          (run env ok ((m1 :: rest).map Event.inbound ++ evs)).2 →
        atts.length ≤ (m1 :: rest).length) ∧
    ((∃ m ∈ m1 :: rest, stepSucceeds env m = true) →
      Event.fire rest.length ∈ evs →
      noteCount (run env ok ((m1 :: rest).map Event.inbound ++ evs)).2 = 1) ∧
    (∀ (s : BotState) (gid2 : String) (orig : Message),
        lookupGroup s.mediaGroups gid2 = none →
        process_media_group env ok s gid2 orig = (s, [])) := by
  have hch := run_trace_effects env ok gid m1 rest evs hm1 hrest hfires
  refine ⟨?_, ?_, ?_, ?_⟩
  · rw [hch]
    by_cases hmem : Event.fire rest.length ∈ evs
    · rw [if_pos hmem]
      exact finalizeRecord_noteCount_le_one env ok m1 (m1 :: rest)
    · rw [if_neg hmem]
      simp [noteCount]
  · intro c atts hmem2
    rw [hch] at hmem2
    by_cases hmem : Event.fire rest.length ∈ evs
    · rw [if_pos hmem] at hmem2
      exact finalizeRecord_atts_le env ok m1 (m1 :: rest) c atts hmem2
    · rw [if_neg hmem] at hmem2
      simp at hmem2
  · intro hsucc hmem
    rw [hch, if_pos hmem]
    exact finalizeRecord_noteCount_of_success env ok m1 (m1 :: rest) hsucc
  · intro s gid2 orig h
    simp [process_media_group, h]

theorem C1_witness :
    wMsgDoc.mediaGroupId = some "g" ∧
    (∀ m ∈ [wMsgVideo], m.mediaGroupId = some "g") ∧
    allFires [Event.fire 1] ∧
    ((∃ m ∈ wMsgDoc :: [wMsgVideo], stepSucceeds wEnvOK m = true) →
      Event.fire [wMsgVideo].length ∈ [Event.fire 1] →
      noteCount (run wEnvOK true
        ((wMsgDoc :: [wMsgVideo]).map Event.inbound ++ [Event.fire 1])).2 = 1) := by
  refine ⟨by decide, by decide, ?_, ?_⟩
  · intro e he
    simp only [List.mem_singleton] at he
    subst he
    rfl
  · exact (C1_single_finalize wEnvOK true "g" wMsgDoc [wMsgVideo] [Event.fire 1]
      (by decide) (by decide)
      (by
        intro e he
        simp only [List.mem_singleton] at he
        subst he
        rfl)).2.2.1

theorem lookupGroup_setGroup_self (l : List (String × GroupRecord))
    (gid : String) (r : GroupRecord) :
    lookupGroup (setGroup l gid r) gid = some r := by
  induction l with
  | nil => simp [setGroup, lookupGroup]
  | cons p t ih =>
    obtain ⟨k, v⟩ := p
    by_cases hk : k = gid
    · simp [setGroup, hk, lookupGroup]
    · simp [setGroup, hk, lookupGroup, ih]

theorem finalizeRecord_downloadSeq (env : Nat → StepEnv) (ok : Bool)
    (orig : Message) (msgs : List Message) :
    downloadSeq (finalizeRecord env ok orig msgs) =
      (msgs.filter (fun m => (chosenFileName m).isSome)).map Message.msgId := by
  have hl := processLoop_downloadSeq env orig.msgId msgs.length msgs 0
  unfold finalizeRecord
  unfold downloadSeq at hl ⊢
  by_cases h : (processLoop env orig.msgId msgs.length 0 msgs).2 = []
  · rw [if_pos h]
    simp only [List.cons_append, List.filterMap_cons, List.filterMap_append,
      List.filterMap_nil]
    rw [hl]
    simp
  · rw [if_neg h]
    simp only [List.cons_append, List.filterMap_cons, List.filterMap_append,
      List.filterMap_nil]
    rw [hl]
    simp

theorem finalizeRecord_uploadSeq (env : Nat → StepEnv) (ok : Bool)
    (orig : Message) (msgs : List Message) :
    uploadSeq (finalizeRecord env ok orig msgs) =
      (msgs.filter (fun m => uploadAttempted env m)).map Message.msgId := by
  have hl := processLoop_uploadSeq env orig.msgId msgs.length msgs 0
  unfold finalizeRecord
  unfold uploadSeq at hl ⊢
  by_cases h : (processLoop env orig.msgId msgs.length 0 msgs).2 = []
  · rw [if_pos h]
    simp only [List.cons_append, List.filterMap_cons, List.filterMap_append,
      List.filterMap_nil]
    rw [hl]
    simp
  · rw [if_neg h]
    simp only [List.cons_append, List.filterMap_cons, List.filterMap_append,
      List.filterMap_nil]
    rw [hl]
    simp

/-! ### Claim C9 -/

/-- C9: for every group, the accumulated messages form an append-only
sequence in arrival order — a new message for a known group id is appended
at the end of the record, and after N inbound messages the record holds
exactly the N messages in arrival order — and the finalizer downloads, and
uploads, the recognized attachments in exactly that order. -/
theorem C9_arrival_order (env : Nat → StepEnv) (ok : Bool) (gid : String)
    (m1 : Message) (rest : List Message)
    (hm1 : m1.mediaGroupId = some gid)
    (hrest : ∀ m ∈ rest, m.mediaGroupId = some gid) :
    (∀ (s : BotState) (m : Message) (g : String) (old : GroupRecord),
        m.mediaGroupId = some g → lookupGroup s.mediaGroups g = some old →
        ∃ newR, lookupGroup (handle_file s m).1.mediaGroups g = some newR ∧
          newR.messages = old.messages ++ [m]) ∧
    lookupGroup (run env ok ((m1 :: rest).map Event.inbound)).1.mediaGroups gid =
      some { messages := m1 :: rest, originalMessage := m1 } ∧
    downloadSeq (finalizeRecord env ok m1 (m1 :: rest)) =
      ((m1 :: rest).filter (fun m => (chosenFileName m).isSome)).map Message.msgId ∧
    uploadSeq (finalizeRecord env ok m1 (m1 :: rest)) =
      ((m1 :: rest).filter (fun m => uploadAttempted env m)).map Message.msgId := by
  refine ⟨?_, ?_, ?_, ?_⟩
  · intro s m g old hm hold
    refine ⟨{ old with messages := old.messages ++ [m] }, ?_, rfl⟩
    simp only [handle_file, hm, hold]
    exact lookupGroup_setGroup_self s.mediaGroups g _
  · rw [runInbounds env ok gid m1 rest hm1 hrest]
    simp [stateAfterInbounds, lookupGroup]
  · exact finalizeRecord_downloadSeq env ok m1 (m1 :: rest)
  · exact finalizeRecord_uploadSeq env ok m1 (m1 :: rest)

theorem C9_witness :
    wMsgDoc.mediaGroupId = some "g" ∧
    (∀ m ∈ [wMsgVideo], m.mediaGroupId = some "g") ∧
    lookupGroup (run wEnvOK true
        ((wMsgDoc :: [wMsgVideo]).map Event.inbound)).1.mediaGroups "g" =
      some { messages := wMsgDoc :: [wMsgVideo], originalMessage := wMsgDoc } :=
  ⟨by decide, by decide,
    (C9_arrival_order wEnvOK true "g" wMsgDoc [wMsgVideo]
      (by decide) (by decide)).2.1⟩

/-! ### Claim C10 -/

/-- C10: no user-visible reply is sent while a group is accumulating
(`handle_file` performs no reply effect, and the whole inbound phase of a
trace emits no effects); the single status reply is created only when
finalization begins, as a reply to the group's first message; every reply
effect of the finalizer targets that first message (later messages' reply
contexts are never used), and exactly one reply is ever created. -/
theorem C10_status_reply (env : Nat → StepEnv) (ok : Bool) (gid : String)
    (m1 : Message) (rest : List Message) (evs : List Event)
    (hm1 : m1.mediaGroupId = some gid)
    (hrest : ∀ m ∈ rest, m.mediaGroupId = some gid)
    (hfires : allFires evs) :
    (∀ (s : BotState) (m : Message), (handle_file s m).2 = []) ∧
    (run env ok ((m1 :: rest).map Event.inbound)).2 = [] ∧
    (finalizeRecord env ok m1 (m1 :: rest)).head? =
      some (Effect.replyCreate m1.msgId (headerText (m1 :: rest).length)) ∧
    (∀ e ∈ finalizeRecord env ok m1 (m1 :: rest), ∀ t,
        replyTarget e = some t → t = m1.msgId) ∧
    ((finalizeRecord env ok m1 (m1 :: rest)).filter isReplyCreate).length = 1 ∧
    (run env ok ((m1 :: rest).map Event.inbound ++ evs)).2 =
      (if Event.fire rest.length ∈ evs then
        finalizeRecord env ok m1 (m1 :: rest) else []) := by
  refine ⟨?_, ?_, ?_, ?_, ?_, ?_⟩
  · intro s m
    cases hm : m.mediaGroupId <;> simp [handle_file, hm]
  · rw [runInbounds env ok gid m1 rest hm1 hrest]
  · unfold finalizeRecord
    by_cases h : (processLoop env m1.msgId (m1 :: rest).length 0 (m1 :: rest)).2 = []
    · rw [if_pos h]; rfl
    · rw [if_neg h]; rfl
  · intro e he t ht
    unfold finalizeRecord at he
    by_cases h : (processLoop env m1.msgId (m1 :: rest).length 0 (m1 :: rest)).2 = []
    · rw [if_pos h] at he
      simp only [List.cons_append, List.mem_cons, List.mem_append,
        List.mem_singleton, List.not_mem_nil, or_false] at he
      rcases he with rfl | hm | rfl
      · simpa [replyTarget] using ht.symm
      · exact processLoop_replyTarget env m1.msgId (m1 :: rest).length
          (m1 :: rest) 0 e hm t ht
      · simpa [replyTarget] using ht.symm
    · rw [if_neg h] at he
      simp only [List.cons_append, List.mem_cons, List.mem_append,
        List.mem_singleton, List.not_mem_nil, or_false] at he
      rcases he with rfl | hm | rfl | rfl | rfl
      · simpa [replyTarget] using ht.symm
      · exact processLoop_replyTarget env m1.msgId (m1 :: rest).length
          (m1 :: rest) 0 e hm t ht
      · simpa [replyTarget] using ht.symm
      · simp [replyTarget] at ht
      · simpa [replyTarget] using ht.symm
  · have hloop : List.filter isReplyCreate
        (processLoop env m1.msgId (m1 :: rest).length 0 (m1 :: rest)).1 = [] := by
      rw [List.filter_eq_nil_iff]
      intro e he
      simp [processLoop_no_replyCreate env m1.msgId (m1 :: rest).length
        (m1 :: rest) 0 e he]
    unfold finalizeRecord
    by_cases h : (processLoop env m1.msgId (m1 :: rest).length 0 (m1 :: rest)).2 = []
    · rw [if_pos h, List.cons_append, List.filter_cons, List.filter_append, hloop]
      simp [isReplyCreate]
    · rw [if_neg h, List.cons_append, List.filter_cons, List.filter_append, hloop]
      simp [isReplyCreate]
  · exact run_trace_effects env ok gid m1 rest evs hm1 hrest hfires

theorem C10_witness :
    wMsgDoc.mediaGroupId = some "g" ∧
    (∀ m ∈ [wMsgVideo], m.mediaGroupId = some "g") ∧
    allFires [Event.fire 1] ∧
    (run wEnvOK true ((wMsgDoc :: [wMsgVideo]).map Event.inbound)).2 = [] :=
  ⟨by decide, by decide,
    by
      intro e he
      simp only [List.mem_singleton] at he
      subst he
      rfl,
    (C10_status_reply wEnvOK true "g" wMsgDoc [wMsgVideo] [Event.fire 1]
      (by decide) (by decide)
      (by
        intro e he
        simp only [List.mem_singleton] at he
        subst he
        rfl)).2.1⟩

/-! ### Preservation of the job-queue invariant -/

theorem cancelOne_jobId (g : String) (j : Job) : (cancelOne g j).jobId = j.jobId := by
  unfold cancelOne; split <;> rfl

theorem cancelOne_jobName (g : String) (j : Job) :
    (cancelOne g j).jobName = j.jobName := by
  unfold cancelOne; split <;> rfl

theorem cancelOne_ctxGroupId (g : String) (j : Job) :
    (cancelOne g j).ctxGroupId = j.ctxGroupId := by
  unfold cancelOne; split <;> rfl

theorem cancelOne_ctxOriginal (g : String) (j : Job) :
    (cancelOne g j).ctxOriginal = j.ctxOriginal := by
  unfold cancelOne; split <;> rfl

theorem cancelOne_live (g : String) (j : Job)
    (h : (cancelOne g j).removed = false) :
    cancelOne g j = j ∧ j.removed = false ∧ j.jobName ≠ some g := by
  unfold cancelOne at h ⊢
  by_cases hj : j.jobName = some g
  · rw [if_pos hj] at h
    simp at h
  · rw [if_neg hj] at h ⊢
    exact ⟨rfl, h, hj⟩

theorem cancelByName_map_jobId (jobs : List Job) (g : String) :
    (cancelByName jobs g).map Job.jobId = jobs.map Job.jobId := by
  unfold cancelByName
  rw [List.map_map]
  apply List.map_congr_left
  intro j _
  exact cancelOne_jobId g j

theorem handle_file_grouped_parts (s : BotState) (m : Message) (gid : String)
    (hm : m.mediaGroupId = some gid) :
    ∃ orig, (handle_file s m).1.jobs = cancelByName s.jobs gid ++
      [{ jobId := s.nextJobId, jobName := some gid,
         delay := MEDIA_GROUP_COLLECTION_DELAY, ctxGroupId := gid,
         ctxOriginal := orig, removed := false }] ∧
    (handle_file s m).1.nextJobId = s.nextJobId + 1 := by
  simp only [handle_file, hm]
  exact ⟨_, rfl, trivial⟩

theorem handle_file_single_parts (s : BotState) (m : Message)
    (hm : m.mediaGroupId = none) :
    (handle_file s m).1.jobs = s.jobs ++
      [{ jobId := s.nextJobId, jobName := none, delay := SINGLE_FILE_DELAY,
         ctxGroupId := syntheticGroupId m.msgId, ctxOriginal := m,
         removed := false }] ∧
    (handle_file s m).1.nextJobId = s.nextJobId + 1 := by
  simp only [handle_file, hm]
  constructor <;> trivial

theorem process_media_group_jobs (env : Nat → StepEnv) (ok : Bool)
    (s : BotState) (gid : String) (orig : Message) :
    (process_media_group env ok s gid orig).1.jobs = s.jobs ∧
    (process_media_group env ok s gid orig).1.nextJobId = s.nextJobId := by
  unfold process_media_group
  cases h : lookupGroup s.mediaGroups gid with
  | none => exact ⟨rfl, rfl⟩
  | some r =>
    by_cases hne : r.messages = []
    · simp [hne]
    · simp [hne]

theorem fireJob_jobs_sublist (env : Nat → StepEnv) (ok : Bool) (s : BotState)
    (jid : Nat) :
    (fireJob env ok s jid).1.jobs.Sublist s.jobs ∧
    (fireJob env ok s jid).1.nextJobId = s.nextJobId := by
  unfold fireJob
  cases h : findJob s.jobs jid with
  | none => exact ⟨List.Sublist.refl _, rfl⟩
  | some j =>
    by_cases hr : j.removed = true
    · simp only [hr, if_true]
      exact ⟨List.filter_sublist _, trivial⟩
    · have hr2 : j.removed = false := by
        cases hb : j.removed
        · rfl
        · exact absurd hb hr
      simp only [hr2, Bool.false_eq_true, if_false]
      have hp := process_media_group_jobs env ok
        { s with jobs := s.jobs.filter (fun j2 => j2.jobId != jid) }
        j.ctxGroupId j.ctxOriginal
      rw [hp.1, hp.2]
      exact ⟨List.filter_sublist _, rfl⟩

theorem jobsInv_of_sublist (future : List Nat) (s s' : BotState)
    (hsub : s'.jobs.Sublist s.jobs) (hnext : s'.nextJobId = s.nextJobId)
    (h : JobsInv future s) : JobsInv future s' := by
  have hmem : ∀ j ∈ s'.jobs, j ∈ s.jobs := fun j hj => hsub.subset hj
  refine ⟨?_, ?_, ?_, ?_, ?_, ?_⟩
  · intro j hj
    rw [hnext]
    exact h.idBound j (hmem j hj)
  · exact List.Nodup.sublist (hsub.map Job.jobId) h.idsNodup
  · intro j hj g hg
    exact h.named j (hmem j hj) g hg
  · intro j hj hg
    exact h.unnamed j (hmem j hj) hg
  · intro j1 hj1 j2 hj2 hr1 hr2 hc
    exact h.uniqueLive j1 (hmem j1 hj1) j2 (hmem j2 hj2) hr1 hr2 hc
  · intro j1 hj1 j2 hj2 hr2 hc
    exact h.liveLatest j1 (hmem j1 hj1) j2 (hmem j2 hj2) hr2 hc

theorem jobsInv_unnamed_mono (fut1 fut2 : List Nat) (s : BotState)
    (hsub : ∀ x, x ∈ fut2 → x ∈ fut1) (h : JobsInv fut1 s) :
    JobsInv fut2 s := by
  refine ⟨h.idBound, h.idsNodup, h.named, ?_, h.uniqueLive, h.liveLatest⟩
  intro j hj hg
  obtain ⟨h1, h2⟩ := h.unnamed j hj hg
  exact ⟨h1, fun hx => h2 (hsub _ hx)⟩

theorem jobsInv_handle_file_grouped (future : List Nat) (s : BotState)
    (m : Message) (gid : String) (hm : m.mediaGroupId = some gid)
    (hdig : gid.data.all Char.isDigit = true) (h : JobsInv future s) :
    JobsInv future (handle_file s m).1 := by
  obtain ⟨orig, hjobs, hnext⟩ := handle_file_grouped_parts s m gid hm
  set newJob : Job :=
    { jobId := s.nextJobId, jobName := some gid,
      delay := MEDIA_GROUP_COLLECTION_DELAY, ctxGroupId := gid,
      ctxOriginal := orig, removed := false } with hnew
  have hmemsplit : ∀ j' ∈ (handle_file s m).1.jobs,
      (∃ j ∈ s.jobs, j' = cancelOne gid j) ∨ j' = newJob := by
    intro j' hj'
    rw [hjobs] at hj'
    rcases List.mem_append.mp hj' with hl | hr
    · obtain ⟨j, hj, hje⟩ := List.mem_map.mp hl
      exact Or.inl ⟨j, hj, hje.symm⟩
    · exact Or.inr (List.mem_singleton.mp hr)
  -- a live old job is an untouched old live job whose name is not the gid,
  -- and its context can never be the gid
  have hlive_old : ∀ j ∈ s.jobs, (cancelOne gid j).removed = false →
      cancelOne gid j = j ∧ j.removed = false ∧ j.jobName ≠ some gid ∧
      j.ctxGroupId ≠ gid := by
    intro j hj hr
    obtain ⟨heq, hrem, hname⟩ := cancelOne_live gid j hr
    refine ⟨heq, hrem, hname, ?_⟩
    intro hctx
    cases hnm : j.jobName with
    | some g2 =>
      obtain ⟨hg2, _⟩ := h.named j hj g2 hnm
      exact hname (by rw [hnm, hg2, hctx])
    | none =>
      obtain ⟨hsyn, _⟩ := h.unnamed j hj hnm
      exact syntheticGroupId_ne_digits j.ctxOriginal.msgId gid hdig
        (by rw [← hsyn, hctx])
  refine ⟨?_, ?_, ?_, ?_, ?_, ?_⟩
  · intro j' hj'
    rw [hnext]
    rcases hmemsplit j' hj' with ⟨j, hj, rfl⟩ | rfl
    · rw [cancelOne_jobId]
      have := h.idBound j hj
      omega
    · simp [hnew]
  · rw [hjobs, List.map_append, cancelByName_map_jobId]
    rw [List.nodup_append]
    refine ⟨h.idsNodup, List.nodup_singleton _, ?_⟩
    intro x hx
    obtain ⟨j, hj, rfl⟩ := List.mem_map.mp hx
    have := h.idBound j hj
    simp only [hnew, List.map_cons, List.map_nil]
    intro hmem
    rcases List.mem_singleton.mp hmem with heq
    omega
  · intro j' hj' g hg
    rcases hmemsplit j' hj' with ⟨j, hj, rfl⟩ | rfl
    · rw [cancelOne_jobName] at hg
      rw [cancelOne_ctxGroupId]
      exact h.named j hj g hg
    · cases Option.some.inj hg
      exact ⟨rfl, hdig⟩
  · intro j' hj' hg
    rcases hmemsplit j' hj' with ⟨j, hj, rfl⟩ | rfl
    · rw [cancelOne_jobName] at hg
      rw [cancelOne_ctxGroupId, cancelOne_ctxOriginal]
      exact h.unnamed j hj hg
    · simp [hnew] at hg
  · intro j1 hj1 j2 hj2 hr1 hr2 hc
    rcases hmemsplit j1 hj1 with ⟨ja, hja, rfl⟩ | rfl <;>
      rcases hmemsplit j2 hj2 with ⟨jb, hjb, rfl⟩ | rfl
    · obtain ⟨he1, hrem1, _, _⟩ := hlive_old ja hja hr1
      obtain ⟨he2, hrem2, _, _⟩ := hlive_old jb hjb hr2
      rw [he1, he2] at hc ⊢
      exact h.uniqueLive ja hja jb hjb hrem1 hrem2 hc
    · obtain ⟨he1, _, _, hctx1⟩ := hlive_old ja hja hr1
      rw [he1] at hc
      exact absurd hc hctx1
    · obtain ⟨he2, _, _, hctx2⟩ := hlive_old jb hjb hr2
      rw [he2] at hc
      exact absurd hc.symm hctx2
    · rfl
  · intro j1 hj1 j2 hj2 hr2 hc
    rcases hmemsplit j2 hj2 with ⟨jb, hjb, rfl⟩ | rfl
    · obtain ⟨he2, hrem2, _, hctx2⟩ := hlive_old jb hjb hr2
      rcases hmemsplit j1 hj1 with ⟨ja, hja, rfl⟩ | rfl
      · rw [he2] at hc ⊢
        rw [cancelOne_jobId]
        rw [cancelOne_ctxGroupId] at hc
        exact h.liveLatest ja hja jb hjb hrem2 hc
      · rw [he2] at hc
        exact absurd hc.symm hctx2
    · rcases hmemsplit j1 hj1 with ⟨ja, hja, rfl⟩ | rfl
      · rw [cancelOne_jobId]
        simp only [hnew]
        have := h.idBound ja hja
        omega
      · exact Nat.le_refl _

theorem jobsInv_handle_file_single (future : List Nat) (s : BotState)
    (m : Message) (hm : m.mediaGroupId = none)
    (h : JobsInv (m.msgId :: future) s) (hnotin : m.msgId ∉ future) :
    JobsInv future (handle_file s m).1 := by
  obtain ⟨hjobs, hnext⟩ := handle_file_single_parts s m hm
  set newJob : Job :=
    { jobId := s.nextJobId, jobName := none, delay := SINGLE_FILE_DELAY,
      ctxGroupId := syntheticGroupId m.msgId, ctxOriginal := m,
      removed := false } with hnew
  have hmemsplit : ∀ j' ∈ (handle_file s m).1.jobs,
      j' ∈ s.jobs ∨ j' = newJob := by
    intro j' hj'
    rw [hjobs] at hj'
    rcases List.mem_append.mp hj' with hl | hr
    · exact Or.inl hl
    · exact Or.inr (List.mem_singleton.mp hr)
  -- an old job's context can never be the fresh synthetic id
  have hctx_old : ∀ j ∈ s.jobs, j.ctxGroupId ≠ syntheticGroupId m.msgId := by
    intro j hj hctx
    cases hnm : j.jobName with
    | some g2 =>
      obtain ⟨hg2, hdig2⟩ := h.named j hj g2 hnm
      exact syntheticGroupId_ne_digits m.msgId g2 hdig2 (by rw [← hctx, hg2])
    | none =>
      obtain ⟨hsyn, hfut⟩ := h.unnamed j hj hnm
      have : j.ctxOriginal.msgId = m.msgId :=
        syntheticGroupId_inj _ _ (by rw [← hsyn, hctx])
      exact hfut (by rw [this]; exact List.mem_cons_self _ _)
  refine ⟨?_, ?_, ?_, ?_, ?_, ?_⟩
  · intro j' hj'
    rw [hnext]
    rcases hmemsplit j' hj' with hj | rfl
    · have := h.idBound j' hj
      omega
    · simp [hnew]
  · rw [hjobs, List.map_append]
    rw [List.nodup_append]
    refine ⟨h.idsNodup, List.nodup_singleton _, ?_⟩
    intro x hx
    obtain ⟨j, hj, rfl⟩ := List.mem_map.mp hx
    have := h.idBound j hj
    simp only [hnew, List.map_cons, List.map_nil]
    intro hmem
    rcases List.mem_singleton.mp hmem with heq
    omega
  · intro j' hj' g hg
    rcases hmemsplit j' hj' with hj | rfl
    · exact h.named j' hj g hg
    · simp [hnew] at hg
  · intro j' hj' hg
    rcases hmemsplit j' hj' with hj | rfl
    · obtain ⟨h1, h2⟩ := h.unnamed j' hj hg
      exact ⟨h1, fun hx => h2 (List.mem_cons_of_mem _ hx)⟩
    · exact ⟨rfl, hnotin⟩
  · intro j1 hj1 j2 hj2 hr1 hr2 hc
    rcases hmemsplit j1 hj1 with hja | rfl <;>
      rcases hmemsplit j2 hj2 with hjb | rfl
    · exact h.uniqueLive j1 hja j2 hjb hr1 hr2 hc
    · exact absurd hc (hctx_old j1 hja)
    · exact absurd hc.symm (hctx_old j2 hjb)
    · rfl
  · intro j1 hj1 j2 hj2 hr2 hc
    rcases hmemsplit j2 hj2 with hjb | rfl
    · rcases hmemsplit j1 hj1 with hja | rfl
      · exact h.liveLatest j1 hja j2 hjb hr2 hc
      · exact absurd hc.symm (hctx_old j2 hjb)
    · rcases hmemsplit j1 hj1 with hja | rfl
      · simp only [hnew]
        have := h.idBound j1 hja
        omega
      · exact Nat.le_refl _

theorem jobsInv_run (env : Nat → StepEnv) (ok : Bool) :
    ∀ (evs : List Event) (s : BotState),
      JobsInv (ungroupedIds evs) s → (ungroupedIds evs).Nodup →
      (∀ e ∈ evs, digitGid e = true) →
      JobsInv [] (runEvents env ok s evs).1 := by
  intro evs
  induction evs with
  | nil => intro s h _ _; exact h
  | cons e t ih =>
    intro s h hnd hdig
    cases e with
    | fire jid =>
      have hu : ungroupedIds (Event.fire jid :: t) = ungroupedIds t := rfl
      rw [hu] at h hnd
      have hsub := fireJob_jobs_sublist env ok s jid
      have hnexti : JobsInv (ungroupedIds t) (fireJob env ok s jid).1 :=
        jobsInv_of_sublist _ _ _ hsub.1 hsub.2 h
      exact ih (fireJob env ok s jid).1 hnexti hnd
        (fun x hx => hdig x (List.mem_cons_of_mem _ hx))
    | inbound m =>
      cases hmg : m.mediaGroupId with
      | some gid =>
        have hu : ungroupedIds (Event.inbound m :: t) = ungroupedIds t := by
          simp [ungroupedIds, List.filterMap_cons, hmg]
        rw [hu] at h hnd
        have hD : gid.data.all Char.isDigit = true := by
          have := hdig _ (List.mem_cons_self (Event.inbound m) t)
          simpa [digitGid, hmg] using this
        have hnexti : JobsInv (ungroupedIds t) (handle_file s m).1 :=
          jobsInv_handle_file_grouped _ s m gid hmg hD h
        exact ih (handle_file s m).1 hnexti hnd
          (fun x hx => hdig x (List.mem_cons_of_mem _ hx))
      | none =>
        have hu : ungroupedIds (Event.inbound m :: t) =
            m.msgId :: ungroupedIds t := by
          simp [ungroupedIds, List.filterMap_cons, hmg]
        rw [hu] at h hnd
        have hnotin : m.msgId ∉ ungroupedIds t := (List.nodup_cons.mp hnd).1
        have hnexti : JobsInv (ungroupedIds t) (handle_file s m).1 :=
          jobsInv_handle_file_single _ s m hmg h hnotin
        exact ih (handle_file s m).1 hnexti (List.nodup_cons.mp hnd).2
          (fun x hx => hdig x (List.mem_cons_of_mem _ hx))

/-! ### Claim C6 -/

/-- C6: in every reachable state of a well-formed trace (distinct ungrouped
message ids, real group ids made of decimal digits), at most one live
finalize timer exists per group id — any two live jobs with the same group
context are the same job — and the live job for a group id is always the
most recently scheduled one; cancelling is idempotent (`cancelByName` is a
no-op when no job carries the name), and a cancelled timer that fires
produces no effects. -/
theorem C6_one_live_timer (env : Nat → StepEnv) (ok : Bool) (evs : List Event)
    (hwf : WFEvents evs) :
    (∀ j1 ∈ (run env ok evs).1.jobs, ∀ j2 ∈ (run env ok evs).1.jobs,
        j1.removed = false → j2.removed = false →
        j1.ctxGroupId = j2.ctxGroupId → j1 = j2) ∧
    (∀ j1 ∈ (run env ok evs).1.jobs, ∀ j2 ∈ (run env ok evs).1.jobs,
        j2.removed = false → j1.ctxGroupId = j2.ctxGroupId →
        j1.jobId ≤ j2.jobId) ∧
    (∀ (jobs : List Job) (g : String), (∀ j ∈ jobs, j.jobName ≠ some g) →
        cancelByName jobs g = jobs) ∧
    (∀ (jid : Nat) (j : Job), findJob (run env ok evs).1.jobs jid = some j →
        j.removed = true →
        (fireJob env ok (run env ok evs).1 jid).2 = []) := by
  have hinv0 : JobsInv (ungroupedIds evs) initState := by
    refine ⟨?_, ?_, ?_, ?_, ?_, ?_⟩ <;>
      first
        | (intro j hj; simp [initState] at hj)
        | simp [initState]
  have hfin := jobsInv_run env ok evs initState hinv0 hwf.1 hwf.2
  refine ⟨hfin.uniqueLive, hfin.liveLatest, ?_, ?_⟩
  · intro jobs g hnone
    unfold cancelByName
    calc jobs.map (cancelOne g) = jobs.map id :=
          List.map_congr_left (fun j hj => by
            unfold cancelOne
            rw [if_neg (hnone j hj)]
            rfl)
      _ = jobs := List.map_id jobs
  · intro jid j hfind hrem
    rw [fireJob_removed env ok _ jid j hfind hrem]

theorem C6_witness :
    (ungroupedIds [Event.inbound wMsgDig1, Event.inbound wMsgDig2,
        Event.inbound wMsgSingleA]).Nodup ∧
    (∀ e ∈ [Event.inbound wMsgDig1, Event.inbound wMsgDig2,
        Event.inbound wMsgSingleA], digitGid e = true) ∧
    (∀ j1 ∈ (run wEnvOK true [Event.inbound wMsgDig1, Event.inbound wMsgDig2,
        Event.inbound wMsgSingleA]).1.jobs,
      ∀ j2 ∈ (run wEnvOK true [Event.inbound wMsgDig1, Event.inbound wMsgDig2,
        Event.inbound wMsgSingleA]).1.jobs,
        j1.removed = false → j2.removed = false →
        j1.ctxGroupId = j2.ctxGroupId → j1 = j2) :=
  ⟨by decide, by decide,
    (C6_one_live_timer wEnvOK true
      [Event.inbound wMsgDig1, Event.inbound wMsgDig2, Event.inbound wMsgSingleA]
      ⟨by decide, by decide⟩).1⟩

theorem process_media_group_head (env : Nat → StepEnv) (ok : Bool)
    (gid : String) (orig : Message) (grec : GroupRecord)
    (tail : List (String × GroupRecord)) (s : BotState)
    (hmg : s.mediaGroups = (gid, grec) :: tail) (hne : grec.messages ≠ []) :
    process_media_group env ok s gid orig =
      ({ s with mediaGroups := tail }, finalizeRecord env ok orig grec.messages) := by
  unfold process_media_group
  rw [hmg]
  simp [lookupGroup, removeGroup, hne]

theorem noteCount_append (a b : List Effect) :
    noteCount (a ++ b) = noteCount a + noteCount b := by
  simp [noteCount, List.filter_append]

/-! ### Claim C7 -/

/-- C7: the synthetic group id `single_<message id>` of an ungrouped file
message never collides with a real (decimal-digit) group id nor with
another message's synthetic id; the message is routed through the same
finalize path (an unnamed job whose context is the synthetic group and
whose record sits in the same table) with delay `0.1` instead of the
standard `1.5`; hence two ungrouped single-file messages handled in the
same instant produce two distinct group records, and firing both timers
produces two independent note-write calls. -/
theorem C7_synthetic_single (env : Nat → StepEnv) (ok : Bool)
    (m1 m2 : Message)
    (h1 : m1.mediaGroupId = none) (h2 : m2.mediaGroupId = none)
    (hne : m1.msgId ≠ m2.msgId)
    (hs1 : stepSucceeds env m1 = true) (hs2 : stepSucceeds env m2 = true) :
    (∀ (k : Nat) (gid : String), gid.data.all Char.isDigit = true →
        syntheticGroupId k ≠ gid) ∧
    (∀ k1 k2 : Nat, k1 ≠ k2 → syntheticGroupId k1 ≠ syntheticGroupId k2) ∧
    (∀ (s : BotState) (m : Message), m.mediaGroupId = none →
        (handle_file s m).1.jobs = s.jobs ++
          [{ jobId := s.nextJobId, jobName := none, delay := 0.1,
             ctxGroupId := syntheticGroupId m.msgId, ctxOriginal := m,
             removed := false }] ∧
        (handle_file s m).1.mediaGroups =
          setGroup s.mediaGroups (syntheticGroupId m.msgId)
            { messages := [m], originalMessage := m }) ∧
    MEDIA_GROUP_COLLECTION_DELAY = 1.5 ∧
    (run env ok [Event.inbound m1, Event.inbound m2]).1.mediaGroups =
      [(syntheticGroupId m1.msgId, { messages := [m1], originalMessage := m1 }),
       (syntheticGroupId m2.msgId, { messages := [m2], originalMessage := m2 })] ∧
    noteCount (run env ok [Event.inbound m1, Event.inbound m2,
        Event.fire 0, Event.fire 1]).2 = 2 := by
  have hv : syntheticGroupId m1.msgId ≠ syntheticGroupId m2.msgId :=
    fun hcontra => hne (syntheticGroupId_inj _ _ hcontra)
  have e1 : handle_file initState m1 =
      ({ mediaGroups :=
           [(syntheticGroupId m1.msgId, { messages := [m1], originalMessage := m1 })],
         jobs := [{ jobId := 0, jobName := none, delay := SINGLE_FILE_DELAY,
                    ctxGroupId := syntheticGroupId m1.msgId, ctxOriginal := m1,
                    removed := false }],
         nextJobId := 1 }, []) := by
    simp [handle_file, h1, initState, setGroup]
  have e2 : handle_file
      { mediaGroups :=
          [(syntheticGroupId m1.msgId, { messages := [m1], originalMessage := m1 })],
        jobs := [{ jobId := 0, jobName := none, delay := SINGLE_FILE_DELAY,
                   ctxGroupId := syntheticGroupId m1.msgId, ctxOriginal := m1,
                   removed := false }],
        nextJobId := 1 } m2 =
      ({ mediaGroups :=
           [(syntheticGroupId m1.msgId, { messages := [m1], originalMessage := m1 }),
            (syntheticGroupId m2.msgId, { messages := [m2], originalMessage := m2 })],
         jobs := [{ jobId := 0, jobName := none, delay := SINGLE_FILE_DELAY,
                    ctxGroupId := syntheticGroupId m1.msgId, ctxOriginal := m1,
                    removed := false },
                  { jobId := 1, jobName := none, delay := SINGLE_FILE_DELAY,
                    ctxGroupId := syntheticGroupId m2.msgId, ctxOriginal := m2,
                    removed := false }],
         nextJobId := 2 }, []) := by
    simp [handle_file, h2, setGroup, hv]
  refine ⟨?_, ?_, ?_, rfl, ?_, ?_⟩
  · intro k gid hd
    exact syntheticGroupId_ne_digits k gid hd
  · intro k1 k2 hk hcontra
    exact hk (syntheticGroupId_inj _ _ hcontra)
  · intro s m hm
    obtain ⟨hj, _⟩ := handle_file_single_parts s m hm
    refine ⟨hj, ?_⟩
    simp [handle_file, hm]
  · simp only [run, runEvents, stepEvent, e1, e2]
  · have hf1 : findJob
        [{ jobId := 0, jobName := none, delay := SINGLE_FILE_DELAY,
           ctxGroupId := syntheticGroupId m1.msgId, ctxOriginal := m1,
           removed := false },
         { jobId := 1, jobName := none, delay := SINGLE_FILE_DELAY,
           ctxGroupId := syntheticGroupId m2.msgId, ctxOriginal := m2,
           removed := false }] 0 =
        some { jobId := 0, jobName := none, delay := SINGLE_FILE_DELAY,
               ctxGroupId := syntheticGroupId m1.msgId, ctxOriginal := m1,
               removed := false } := rfl
    have e3 := fireJob_live env ok
      { mediaGroups :=
          [(syntheticGroupId m1.msgId, { messages := [m1], originalMessage := m1 }),
           (syntheticGroupId m2.msgId, { messages := [m2], originalMessage := m2 })],
        jobs := [{ jobId := 0, jobName := none, delay := SINGLE_FILE_DELAY,
                   ctxGroupId := syntheticGroupId m1.msgId, ctxOriginal := m1,
                   removed := false },
                 { jobId := 1, jobName := none, delay := SINGLE_FILE_DELAY,
                   ctxGroupId := syntheticGroupId m2.msgId, ctxOriginal := m2,
                   removed := false }],
        nextJobId := 2 } 0 _ hf1 rfl
    rw [process_media_group_head env ok (syntheticGroupId m1.msgId) m1
      { messages := [m1], originalMessage := m1 }
      [(syntheticGroupId m2.msgId, { messages := [m2], originalMessage := m2 })]
      _ rfl (by simp)] at e3
    have hf2 : findJob
        (List.filter (fun j2 => j2.jobId != 0)
          [{ jobId := 0, jobName := none, delay := SINGLE_FILE_DELAY,
             ctxGroupId := syntheticGroupId m1.msgId, ctxOriginal := m1,
             removed := false },
           { jobId := 1, jobName := none, delay := SINGLE_FILE_DELAY,
             ctxGroupId := syntheticGroupId m2.msgId, ctxOriginal := m2,
             removed := false }]) 1 =
        some { jobId := 1, jobName := none, delay := SINGLE_FILE_DELAY,
               ctxGroupId := syntheticGroupId m2.msgId, ctxOriginal := m2,
               removed := false } := rfl
    have e4 := fireJob_live env ok
      { mediaGroups :=
          [(syntheticGroupId m2.msgId, { messages := [m2], originalMessage := m2 })],
        jobs := List.filter (fun j2 => j2.jobId != 0)
          [{ jobId := 0, jobName := none, delay := SINGLE_FILE_DELAY,
             ctxGroupId := syntheticGroupId m1.msgId, ctxOriginal := m1,
             removed := false },
           { jobId := 1, jobName := none, delay := SINGLE_FILE_DELAY,
             ctxGroupId := syntheticGroupId m2.msgId, ctxOriginal := m2,
             removed := false }],
        nextJobId := 2 } 1 _ hf2 rfl
    rw [process_media_group_head env ok (syntheticGroupId m2.msgId) m2
      { messages := [m2], originalMessage := m2 } [] _ rfl (by simp)] at e4
    simp only [run, runEvents, stepEvent, e1, e2, e3, e4]
    simp only [List.nil_append, List.append_nil, noteCount_append]
    rw [finalizeRecord_noteCount_of_success env ok m1 [m1]
      ⟨m1, List.mem_singleton.mpr rfl, hs1⟩]
    rw [finalizeRecord_noteCount_of_success env ok m2 [m2]
      ⟨m2, List.mem_singleton.mpr rfl, hs2⟩]

theorem C7_witness :
    wMsgSingleA.mediaGroupId = none ∧
    wMsgSingleB.mediaGroupId = none ∧
    wMsgSingleA.msgId ≠ wMsgSingleB.msgId ∧
    stepSucceeds wEnvOK wMsgSingleA = true ∧
    stepSucceeds wEnvOK wMsgSingleB = true ∧
    noteCount (run wEnvOK true [Event.inbound wMsgSingleA,
        Event.inbound wMsgSingleB, Event.fire 0, Event.fire 1]).2 = 2 :=
  ⟨by decide, by decide, by decide, by decide, by decide,
    (C7_synthetic_single wEnvOK true wMsgSingleA wMsgSingleB
      (by decide) (by decide) (by decide) (by decide) (by decide)).2.2.2.2.2⟩

end PyBlinkoBot
